import Mathlib

/-!
Shallow embedding of the limitedRowbot execution and safety pipeline:
the ExecutionEngine / EnhancedExecutionEngine state machines
(src/unnamed/part_009), the enhanced permission evaluator
(packages/permission-system/src/enhanced-permission-guard.ts), the
sliding-window rate limiter (packages/tool-system/src/rate-limiter.ts)
and the tool parameter validator
(packages/tool-system/src/tool-validator.ts).

Machine conventions: JavaScript strings are Lean Strings, timestamps are
Int, JS exceptions are the error side of Except.  Asynchronous callbacks
(permission answers, executor outcomes) are modelled as pure functions of
the step index, which is a faithful encoding because each step prompts and
executes at most once per run.  Cancellation is never triggered in the
modelled runs (the cancelled flag stays false throughout), matching runs
in which cancel() is not called.
-/

/-- Embedding of the JavaScript expression s.includes(pattern):
substring containment on the character sequence.  The empty pattern is
always contained, as in JavaScript. -/
def jsIncludes (s pattern : String) : Bool :=
  decide (pattern.toList <:+: s.toList)

/-- Embedding of the JavaScript expression s.toLowerCase(), as a
character map (the pipeline only compares ASCII content). -/
def jsToLower (s : String) : String :=
  ⟨s.data.map Char.toLower⟩

/-- Removal of leading whitespace from a character list. -/
def trimLeftChars : List Char → List Char
  | [] => []
  | c :: cs => if c.isWhitespace then trimLeftChars cs else c :: cs

/-- Embedding of the JavaScript expression s.trim(): whitespace is
stripped from both ends. -/
def jsTrim (s : String) : String :=
  ⟨(trimLeftChars ((trimLeftChars s.data).reverse)).reverse⟩

/-- Embedding of the JavaScript expression s.startsWith(pre). -/
def jsStartsWith (s pre : String) : Bool :=
  pre.data.isPrefixOf s.data

/-- PlanStep from types.ts: one unit of work produced by the planner.
The params map is omitted: no modelled code path reads it. -/
structure PlanStep where
  id : String
  toolName : String
  riskLevel : String
  description : Option String
deriving Repr, DecidableEq

/-- StepResult from types.ts.  The opaque result payload is a String. -/
structure StepResult where
  stepId : String
  success : Bool
  result : Option String
  error : Option String
deriving Repr, DecidableEq

/-- Payload of a result event: either formatted text, the raw step
results (base engine), or the possibly-sparse step results array of the
enhanced engine (holes model JavaScript sparse-array slots). -/
inductive ResultData where
  | formatted (s : String)
  | raw (rs : List StepResult)
  | rawSparse (rs : List (Option StepResult))
deriving Repr, DecidableEq

/-- Events of the execution event stream (types.ts), with the payload
fields the engines actually fill.  The taskId field of confirm_plan (a
wall-clock string) and step_progress (never emitted by either engine)
are not modelled. -/
inductive Event where
  | status (message phase : String)
  | confirmPlan (goal : String) (steps highRiskSteps : List PlanStep)
  | confirmPermission (toolName action riskLevel description : String)
  | stepStart (stepIndex totalSteps : Nat) (toolName : String) (description : Option String)
  | stepComplete (stepIndex : Nat) (success : Bool) (result error : Option String)
  | result (success : Bool) (data : Option ResultData) (error : Option String)
  | error (message : String)
deriving Repr, DecidableEq

/-- ExecutionResult from types.ts, as returned by ExecutionEngine.run. -/
structure ExecutionResult where
  success : Bool
  error : Option String
  steps : List StepResult
deriving Repr, DecidableEq

/-- High-risk test used by both engines:
step.riskLevel === SYSTEM or DELETE. -/
def isHighRisk (s : PlanStep) : Bool :=
  s.riskLevel == "SYSTEM" || s.riskLevel == "DELETE"

/-- Event emitted when a high-risk step asks for permission
(engine.ts lines 221-229 and enhanced-engine.ts lines 631-639). -/
def permPromptEvent (step : PlanStep) : Event :=
  Event.confirmPermission step.toolName
    (step.description.getD ("执行 " ++ step.toolName))
    step.riskLevel
    (step.description.getD "")

/-- Recognizer for confirm_permission events. -/
def isConfirmPermissionEvent : Event → Bool
  | .confirmPermission _ _ _ _ => true
  | _ => false

/-- Recognizer for confirm_plan events. -/
def isConfirmPlanEvent : Event → Bool
  | .confirmPlan _ _ _ => true
  | _ => false

/-- Outcome of one executor invocation recorded by the base engine loop
(engine.ts lines 246-272): the step_complete event and the StepResult,
from the Except value of the invocation (error = thrown message). -/
def execOutcome (i : Nat) (step : PlanStep) : Except String String → Event × StepResult
  | .ok v => (.stepComplete i true (some v) none, ⟨step.id, true, some v, none⟩)
  | .error e => (.stepComplete i false none (some e), ⟨step.id, false, none, some e⟩)

/-- Body of the base engine step loop for one step (engine.ts lines
206-272): step_start, optional permission prompt, then either the denial
record or one executor invocation.  Returns (events, executor
invocations as (index, step) pairs, the StepResult pushed). -/
def processStep (perms : Nat → Bool) (exec : Nat → PlanStep → Except String String)
    (total i : Nat) (step : PlanStep) :
    List Event × List (Nat × PlanStep) × StepResult :=
  let startEv := Event.stepStart i total step.toolName step.description
  if isHighRisk step then
    if perms i then
      let (ev, res) := execOutcome i step (exec i step)
      ([startEv, permPromptEvent step, ev], [(i, step)], res)
    else
      ([startEv, permPromptEvent step, .stepComplete i false none (some "用户拒绝")],
        [], ⟨step.id, false, none, some "用户拒绝"⟩)
  else
    let (ev, res) := execOutcome i step (exec i step)
    ([startEv, ev], [(i, step)], res)

/-- Step loop of ExecutionEngine.run (engine.ts lines 201-273), started
at index i over the remaining steps. -/
def stepLoop (perms : Nat → Bool) (exec : Nat → PlanStep → Except String String)
    (total : Nat) : Nat → List PlanStep → List Event × List (Nat × PlanStep) × List StepResult
  | _, [] => ([], [], [])
  | i, step :: rest =>
    let (evs, calls, res) := processStep perms exec total i step
    let (evs', calls', results') := stepLoop perms exec total (i + 1) rest
    (evs ++ evs', calls ++ calls', res :: results')

/-- Formatting phase of ExecutionEngine.run (engine.ts lines 276-305).
When a formatter is present and some step succeeded, the result event
carries success true (hardcoded in the source) with the formatted text,
or the raw step results if the formatter throws; otherwise the result
event carries the conjunction of step successes and the raw results. -/
def formatPhase (goal : String)
    (formatter : Option (String → List StepResult → Except String String))
    (stepResults : List StepResult) : List Event :=
  match formatter, stepResults.any (·.success) with
  | some f, true =>
    Event.status "整理结果..." "formatting" ::
      (match f goal stepResults with
        | .ok s => [Event.result true (some (.formatted s)) none]
        | .error _ => [Event.result true (some (.raw stepResults)) none])
  | _, _ => [Event.result (stepResults.all (·.success)) (some (.raw stepResults)) none]

/-- Output of one modelled run: event trace, executor invocations in
order, and the returned ExecutionResult. -/
structure RunOutput where
  events : List Event
  calls : List (Nat × PlanStep)
  result : ExecutionResult
deriving Repr, DecidableEq

/-- ExecutionEngine.run (engine.ts lines 153-311) for a run in which
cancel() is never called.  planner is the Except outcome of the planner
call, planApproved the answer to the plan confirmation, perms the answer
to the permission prompt at each step index, exec the outcome of the
executor invocation at each step index. -/
def ExecutionEngine.run (goal : String)
    (planner : Except String (List PlanStep))
    (planApproved : Bool)
    (perms : Nat → Bool)
    (exec : Nat → PlanStep → Except String String)
    (formatter : Option (String → List StepResult → Except String String)) : RunOutput :=
  let planningEv := Event.status "正在规划..." "planning"
  match planner with
  | .error e => ⟨[planningEv, .error e], [], ⟨false, some "规划失败", []⟩⟩
  | .ok steps =>
    let highRiskSteps := steps.filter isHighRisk
    let confirmEv := Event.confirmPlan goal steps highRiskSteps
    if !planApproved then
      ⟨[planningEv, confirmEv], [], ⟨false, some "用户取消", []⟩⟩
    else
      let execEv := Event.status "正在执行..." "executing"
      let (evs, calls, stepResults) := stepLoop perms exec steps.length 0 steps
      let finalEvs := formatPhase goal formatter stepResults
      ⟨[planningEv, confirmEv, execEv] ++ evs ++ finalEvs, calls,
        ⟨stepResults.all (·.success), none, stepResults⟩⟩

/-- Independence test of the enhanced engine
(enhanced-engine.ts lines 574-577): a step is independent when its tool
name is outside the fixed mutation-tool set. -/
def isIndependentStep (step : PlanStep) : Bool :=
  !(["file_write", "file_delete", "file_move", "shell_execute"].contains step.toolName)

/-- Slice loop of chunkBatches, with a structural fuel argument: each
iteration with a positive stride consumes at least one element, so fuel
equal to the list length is always enough. -/
def chunkGo (k : Nat) : Nat → List α → List (List α)
  | _, [] => []
  | 0, _ :: _ => []
  | fuel + 1, x :: xs =>
    if k = 0 then []
    else (x :: xs).take k :: chunkGo k fuel ((x :: xs).drop k)

/-- Batching of enhanced-engine.ts lines 583-587: the slice loop
advancing by maxConcurrent.  A zero maxConcurrent makes the source loop
spin forever; that divergent case is mapped to an empty batch list and
excluded by hypothesis wherever it matters. -/
def chunkBatches (k : Nat) (l : List α) : List (List α) :=
  chunkGo k l.length l

/-- EnhancedExecutionEngine.executeSingleStep (enhanced-engine.ts lines
611-686) for an uncancelled run: step_start, a permission prompt for
high-risk steps, then one timeout-raced executor invocation whose
timeout rejection is one more Except error.  Returns (events, executor
invocations, StepResult). -/
def executeSingleStep (perms : Nat → Bool) (exec : Nat → PlanStep → Except String String)
    (totalSteps stepIndex : Nat) (step : PlanStep) :
    List Event × List (Nat × PlanStep) × StepResult :=
  let startEv := Event.stepStart stepIndex totalSteps step.toolName step.description
  if isHighRisk step then
    if perms stepIndex then
      let (ev, res) := execOutcome stepIndex step (exec stepIndex step)
      ([startEv, permPromptEvent step, ev], [(stepIndex, step)], res)
    else
      ([startEv, permPromptEvent step, .stepComplete stepIndex false none (some "用户拒绝")],
        [], ⟨step.id, false, none, some "用户拒绝"⟩)
  else
    let (ev, res) := execOutcome stepIndex step (exec stepIndex step)
    ([startEv, ev], [(stepIndex, step)], res)

/-- EnhancedExecutionEngine.executeParallel batch loop
(enhanced-engine.ts lines 591-606) over the prepared batches: every
member of a batch runs executeSingleStep (the Promise.all fan-out,
collected in batch order), and with failFast set a batch containing a
failure stops the loop.  Returns (events, executor invocations, indexed
step results in completion order).  This computes the batch outcomes
under the assumption that every permission prompt of the batch gets its
answer; it is faithful to the source only when a batch opens at most
one prompt, because waitForConfirm (lines 701-705) stores its resolver
in the single pendingConfirm slot, unconditionally overwriting any
earlier one.  executeParallelBatchesPC below layers that slot on top of
this computation and marks the overwritten (never-returning) runs. -/
def executeParallelBatches (perms : Nat → Bool) (exec : Nat → PlanStep → Except String String)
    (failFast : Bool) (totalSteps : Nat) :
    List (List (Nat × PlanStep)) → List Event × List (Nat × PlanStep) × List (Nat × StepResult)
  | [] => ([], [], [])
  | batch :: rest =>
    let outs := batch.map (fun p => (p.1, executeSingleStep perms exec totalSteps p.1 p.2))
    let evs := (outs.map (fun o => o.2.1)).flatten
    let calls := (outs.map (fun o => o.2.2.1)).flatten
    let batchResults := outs.map (fun o => (o.1, o.2.2.2))
    if failFast && batchResults.any (fun r => !r.2.success) then
      (evs, calls, batchResults)
    else
      let (evs', calls', res') := executeParallelBatches perms exec failFast totalSteps rest
      (evs ++ evs', calls ++ calls', batchResults ++ res')

/-- Write-back of enhanced-engine.ts lines 558-568: each computed result
is assigned at its original index into an array created as
new Array(steps.length); unassigned slots stay holes (none). -/
def writeBack (n : Nat) (written : List (Nat × StepResult)) : List (Option StepResult) :=
  written.foldl (fun acc p => acc.set p.1 (some p.2)) (List.replicate n none)

/-- EnhancedExecutionEngine.executeSteps (enhanced-engine.ts lines
543-572): partition into independent and dependent steps preserving
original indices, run independent steps through the batch loop when
there are at least two of them (serially otherwise), then the dependent
steps strictly serially, and assemble the index-aligned results array.
Also returns the batch list used by the parallel path. -/
def executeSteps (perms : Nat → Bool) (exec : Nat → PlanStep → Except String String)
    (maxConcurrent : Nat) (failFast : Bool) (steps : List PlanStep) :
    List Event × List (Nat × PlanStep) × List (List (Nat × PlanStep)) × List (Option StepResult) :=
  let indexed := steps.enum
  let independentSteps := indexed.filter (fun p => isIndependentStep p.2)
  let dependentSteps := indexed.filter (fun p => !(isIndependentStep p.2))
  let (evsI, callsI, batches, indepResults) :=
    if independentSteps.length > 1 then
      let bs := chunkBatches maxConcurrent independentSteps
      let (e, c, r) := executeParallelBatches perms exec failFast steps.length bs
      (e, c, bs, r)
    else
      let outs := independentSteps.map
        (fun p => (p.1, executeSingleStep perms exec steps.length p.1 p.2))
      ((outs.map (fun o => o.2.1)).flatten,
        (outs.map (fun o => o.2.2.1)).flatten,
        ([] : List (List (Nat × PlanStep))),
        outs.map (fun o => (o.1, o.2.2.2)))
  let outsD := dependentSteps.map
    (fun p => (p.1, executeSingleStep perms exec steps.length p.1 p.2))
  let evsD := (outsD.map (fun o => o.2.1)).flatten
  let callsD := (outsD.map (fun o => o.2.2.1)).flatten
  let depResults := outsD.map (fun o => (o.1, o.2.2.2))
  (evsI ++ evsD, callsI ++ callsD, batches, writeBack steps.length (indepResults ++ depResults))

/-- Truth value of r.success over the possibly-sparse enhanced results
array under the JavaScript sparse-array semantics of every (holes are
skipped). -/
def sparseAllSuccess (rs : List (Option StepResult)) : Bool :=
  rs.all (fun o => match o with | none => true | some r => r.success)

/-- Truth value of r.success over the possibly-sparse enhanced results
array under the JavaScript sparse-array semantics of some (holes are
skipped). -/
def sparseAnySuccess (rs : List (Option StepResult)) : Bool :=
  rs.any (fun o => match o with | none => false | some r => r.success)

/-- Formatting phase of EnhancedExecutionEngine.execute
(enhanced-engine.ts lines 504-535): unlike the base engine the emitted
result event carries allSuccess in every branch. -/
def enhancedFormatPhase (goal : String)
    (formatter : Option (String → List (Option StepResult) → Except String String))
    (stepResults : List (Option StepResult)) : List Event :=
  let allSuccess := sparseAllSuccess stepResults
  match formatter, sparseAnySuccess stepResults with
  | some f, true =>
    Event.status "整理结果..." "formatting" ::
      (match f goal stepResults with
        | .ok s => [Event.result allSuccess (some (.formatted s)) none]
        | .error _ => [Event.result allSuccess (some (.rawSparse stepResults)) none])
  | _, _ => [Event.result allSuccess (some (.rawSparse stepResults)) none]

/-- Result of one enhanced run: the enhanced steps array may contain
holes, so its entries are Options. -/
structure EnhancedRunOutput where
  events : List Event
  calls : List (Nat × PlanStep)
  batches : List (List (Nat × PlanStep))
  success : Bool
  resultError : Option String
  steps : List (Option StepResult)
deriving Repr, DecidableEq

/-- EnhancedExecutionEngine.execute (enhanced-engine.ts lines 447-541)
for a run in which cancel() is never called.  The planner timeout race
is folded into the planner Except outcome, exactly as the executor
timeout is folded into exec. -/
def EnhancedExecutionEngine.execute (goal : String)
    (planner : Except String (List PlanStep))
    (planApproved : Bool)
    (perms : Nat → Bool)
    (exec : Nat → PlanStep → Except String String)
    (formatter : Option (String → List (Option StepResult) → Except String String))
    (maxConcurrent : Nat) (failFast : Bool) : EnhancedRunOutput :=
  let planningEv := Event.status "正在规划..." "planning"
  match planner with
  | .error e =>
    ⟨[planningEv, .error e, .result false none (some "规划失败")], [], [],
      false, some "规划失败", []⟩
  | .ok steps =>
    if steps.length = 0 then
      ⟨[planningEv, .status "无需执行" "executing", .result true none none], [], [],
        true, none, []⟩
    else
      let highRiskSteps := steps.filter isHighRisk
      let confirmEv := Event.confirmPlan goal steps highRiskSteps
      if !planApproved then
        ⟨[planningEv, confirmEv, .result false none (some "用户取消")], [], [],
          false, some "用户取消", []⟩
      else
        let execEv := Event.status "正在执行..." "executing"
        let (evs, calls, batches, stepResults) :=
          executeSteps perms exec maxConcurrent failFast steps
        let finalEvs := enhancedFormatPhase goal formatter stepResults
        ⟨[planningEv, confirmEv, execEv] ++ evs ++ finalEvs, calls, batches,
          sparseAllSuccess stepResults, none, stepResults⟩

/-- Batch loop of executeParallel refined by the pendingConfirm slot of
waitForConfirm (enhanced-engine.ts lines 701-705).  During the
synchronous Promise.all fan-out every SYSTEM or DELETE step of the
batch emits confirm_permission and stores its resolver in that single
slot, each store overwriting the previous one: with two or more such
steps in one batch every resolver but the last is orphaned, the
orphaned steps never resume, Promise.all never settles and the run
never returns.  none marks such a hanging run (the events it emits and
the executor calls it starts before hanging are not modelled); a batch
opening at most one prompt behaves as in executeParallelBatches. -/
def executeParallelBatchesPC (perms : Nat → Bool)
    (exec : Nat → PlanStep → Except String String)
    (failFast : Bool) (totalSteps : Nat) :
    List (List (Nat × PlanStep)) →
      Option (List Event × List (Nat × PlanStep) × List (Nat × StepResult))
  | [] => some ([], [], [])
  | batch :: rest =>
    if 2 ≤ (batch.filter (fun p => isHighRisk p.2)).length then
      none
    else
      let outs := batch.map (fun p => (p.1, executeSingleStep perms exec totalSteps p.1 p.2))
      let evs := (outs.map (fun o => o.2.1)).flatten
      let calls := (outs.map (fun o => o.2.2.1)).flatten
      let batchResults := outs.map (fun o => (o.1, o.2.2.2))
      if failFast && batchResults.any (fun r => !r.2.success) then
        some (evs, calls, batchResults)
      else
        match executeParallelBatchesPC perms exec failFast totalSteps rest with
        | none => none
        | some (evs', calls', res') => some (evs ++ evs', calls ++ calls', batchResults ++ res')

/-- executeSteps refined by the non-returning runs of the source: when
the parallel path is entered, a zero maxConcurrent makes the slice loop
of executeParallel (lines 585-587) spin forever, and a batch opening
two or more permission prompts deadlocks on the pendingConfirm slot;
both cases are mapped to none. -/
def executeStepsPC (perms : Nat → Bool) (exec : Nat → PlanStep → Except String String)
    (maxConcurrent : Nat) (failFast : Bool) (steps : List PlanStep) :
    Option (List Event × List (Nat × PlanStep)
      × List (List (Nat × PlanStep)) × List (Option StepResult)) :=
  let indexed := steps.enum
  let independentSteps := indexed.filter (fun p => isIndependentStep p.2)
  let dependentSteps := indexed.filter (fun p => !(isIndependentStep p.2))
  let indepPhase : Option (List Event × List (Nat × PlanStep)
      × List (List (Nat × PlanStep)) × List (Nat × StepResult)) :=
    if independentSteps.length > 1 then
      if maxConcurrent = 0 then none
      else
        let bs := chunkBatches maxConcurrent independentSteps
        (executeParallelBatchesPC perms exec failFast steps.length bs).map
          (fun ecr => (ecr.1, ecr.2.1, bs, ecr.2.2))
    else
      let outs := independentSteps.map
        (fun p => (p.1, executeSingleStep perms exec steps.length p.1 p.2))
      some ((outs.map (fun o => o.2.1)).flatten,
        (outs.map (fun o => o.2.2.1)).flatten,
        ([] : List (List (Nat × PlanStep))),
        outs.map (fun o => (o.1, o.2.2.2)))
  match indepPhase with
  | none => none
  | some (evsI, callsI, batches, indepResults) =>
    let outsD := dependentSteps.map
      (fun p => (p.1, executeSingleStep perms exec steps.length p.1 p.2))
    let evsD := (outsD.map (fun o => o.2.1)).flatten
    let callsD := (outsD.map (fun o => o.2.2.1)).flatten
    let depResults := outsD.map (fun o => (o.1, o.2.2.2))
    some (evsI ++ evsD, callsI ++ callsD, batches,
      writeBack steps.length (indepResults ++ depResults))

/-- EnhancedExecutionEngine.execute refined by the pendingConfirm slot:
identical to execute except that the step phase goes through
executeStepsPC, so the whole run is none exactly when the source run
never returns (a spinning batch slicing, or a deadlocked multi-prompt
batch whose orphaned steps keep Promise.all pending and their executor
calls skipped). -/
def EnhancedExecutionEngine.executePC (goal : String)
    (planner : Except String (List PlanStep))
    (planApproved : Bool)
    (perms : Nat → Bool)
    (exec : Nat → PlanStep → Except String String)
    (formatter : Option (String → List (Option StepResult) → Except String String))
    (maxConcurrent : Nat) (failFast : Bool) : Option EnhancedRunOutput :=
  let planningEv := Event.status "正在规划..." "planning"
  match planner with
  | .error e =>
    some ⟨[planningEv, .error e, .result false none (some "规划失败")], [], [],
      false, some "规划失败", []⟩
  | .ok steps =>
    if steps.length = 0 then
      some ⟨[planningEv, .status "无需执行" "executing", .result true none none], [], [],
        true, none, []⟩
    else
      let highRiskSteps := steps.filter isHighRisk
      let confirmEv := Event.confirmPlan goal steps highRiskSteps
      if !planApproved then
        some ⟨[planningEv, confirmEv, .result false none (some "用户取消")], [], [],
          false, some "用户取消", []⟩
      else
        let execEv := Event.status "正在执行..." "executing"
        match executeStepsPC perms exec maxConcurrent failFast steps with
        | none => none
        | some (evs, calls, batches, stepResults) =>
          let finalEvs := enhancedFormatPhase goal formatter stepResults
          some ⟨[planningEv, confirmEv, execEv] ++ evs ++ finalEvs, calls, batches,
            sparseAllSuccess stepResults, none, stepResults⟩

/-- RiskLevel enum from permission-system types.ts. -/
inductive RiskLevel where
  | READ
  | MODIFY
  | DELETE
  | SYSTEM
deriving Repr, DecidableEq, BEq

/-- PermissionRequest from permission-system types.ts (the opaque data
map is omitted: evaluate destructures but never reads it). -/
structure PermissionRequest where
  toolName : String
  action : String
  target : Option String
  riskLevel : RiskLevel
  description : String
deriving Repr, DecidableEq

/-- PermissionResult from permission-system types.ts. -/
structure PermissionResult where
  granted : Bool
  reason : Option String
  requiresBackup : Bool
deriving Repr, DecidableEq

/-- WhitelistConfig from enhanced-permission-guard.ts. -/
structure WhitelistConfig where
  allowedCommands : List String
  allowedPaths : List String
  allowedDomains : List String
  deniedCommands : List String
  deniedPaths : List String
  deniedDomains : List String
deriving Repr, DecidableEq

/-- ApprovalPolicy from enhanced-permission-guard.ts. -/
structure ApprovalPolicy where
  autoApprove : List RiskLevel
  requireConfirmation : List RiskLevel
  denyByDefault : Bool
deriving Repr, DecidableEq

/-- DEFAULT_WHITELIST constant (enhanced-permission-guard.ts lines
37-57). -/
def DEFAULT_WHITELIST : WhitelistConfig where
  allowedCommands := []
  allowedPaths := []
  allowedDomains := []
  deniedCommands := ["rm -rf", "del /s", "format", "shutdown", "restart", "reg delete", "bcdedit"]
  deniedPaths := ["C:\\Windows\\System32", "C:\\Program Files", "/etc", "/usr/bin"]
  deniedDomains := []

/-- DEFAULT_APPROVAL_POLICY constant (enhanced-permission-guard.ts
lines 59-63). -/
def DEFAULT_APPROVAL_POLICY : ApprovalPolicy where
  autoApprove := [.READ]
  requireConfirmation := [.MODIFY, .DELETE, .SYSTEM]
  denyByDefault := false

/-- Outcome record of the three whitelist checks
({allowed, reason?}). -/
structure CheckResult where
  allowed : Bool
  reason : Option String
deriving Repr, DecidableEq

/-- isCommandAllowed (enhanced-permission-guard.ts lines 87-106): the
command is lowercased and trimmed, denied on the first denylisted
substring hit, then required to hit a non-empty allowlist. -/
def isCommandAllowed (wl : WhitelistConfig) (command : String) : CheckResult :=
  let cmd := jsTrim (jsToLower command)
  match wl.deniedCommands.find? (fun denied => jsIncludes cmd (jsToLower denied)) with
  | some denied => ⟨false, some ("Command contains denied pattern: " ++ denied)⟩
  | none =>
    if wl.allowedCommands.length > 0
        && !(wl.allowedCommands.any (fun allowed => jsIncludes cmd (jsToLower allowed))) then
      ⟨false, some "Command not in allowed list"⟩
    else
      ⟨true, none⟩

/-- isPathAllowed (enhanced-permission-guard.ts lines 108-125):
case-insensitive prefix tests against denied then allowed paths. -/
def isPathAllowed (wl : WhitelistConfig) (targetPath : String) : CheckResult :=
  match wl.deniedPaths.find? (fun denied => jsStartsWith (jsToLower targetPath) (jsToLower denied)) with
  | some denied => ⟨false, some ("Path is in denied list: " ++ denied)⟩
  | none =>
    if wl.allowedPaths.length > 0
        && !(wl.allowedPaths.any (fun allowed => jsStartsWith (jsToLower targetPath) (jsToLower allowed))) then
      ⟨false, some "Path not in allowed list"⟩
    else
      ⟨true, none⟩

/-- isDomainAllowed (enhanced-permission-guard.ts lines 127-151).  The
WHATWG URL parser is abstracted as parseHostname, returning the
hostname on success and none when new URL(url) throws; the catch branch
returns allowed (fail-open). -/
def isDomainAllowed (wl : WhitelistConfig) (parseHostname : String → Option String)
    (url : String) : CheckResult :=
  match parseHostname url with
  | none => ⟨true, none⟩
  | some hostname =>
    let domain := jsToLower hostname
    match wl.deniedDomains.find? (fun denied => jsIncludes domain (jsToLower denied)) with
    | some denied => ⟨false, some ("Domain is in denied list: " ++ denied)⟩
    | none =>
      if wl.allowedDomains.length > 0
          && !(wl.allowedDomains.any (fun allowed => jsIncludes domain (jsToLower allowed))) then
        ⟨false, some "Domain not in allowed list"⟩
      else
        ⟨true, none⟩

/-- Session approval state (enhanced-permission-guard.ts lines 32-35),
with the tool-to-count map as an association list. -/
structure SessionState where
  approvals : List (String × Nat)
  lastActivity : Int
deriving Repr, DecidableEq

/-- Map.set on the association list modelling sessionState.approvals. -/
def setApproval (l : List (String × Nat)) (k : String) (v : Nat) : List (String × Nat) :=
  if l.any (fun p => p.1 == k) then
    l.map (fun p => if p.1 == k then (k, v) else p)
  else
    l ++ [(k, v)]

/-- checkSessionLimit (enhanced-permission-guard.ts lines 153-169):
clear the counters if idle past sessionTimeout, stamp lastActivity,
deny at maxApprovalsPerSession, otherwise count the approval. -/
def checkSessionLimit (sessionTimeout maxApprovalsPerSession : Nat) (now : Int)
    (toolName : String) (state : SessionState) : Bool × SessionState :=
  let approvals :=
    if now - state.lastActivity > (sessionTimeout : Int) then [] else state.approvals
  let currentCount := ((approvals.find? (fun p => p.1 == toolName)).map (·.2)).getD 0
  if currentCount ≥ maxApprovalsPerSession then
    (false, ⟨approvals, now⟩)
  else
    (true, ⟨setApproval approvals toolName (currentCount + 1), now⟩)

/-- Truthiness of the optional target string: JavaScript treats the
empty string and undefined as falsy. -/
def targetTruthy : Option String → Bool
  | some t => t ≠ ""
  | none => false

/-- Risk-tier policy stage of evaluate (enhanced-permission-guard.ts
lines 208-244): auto-approve set, neither-set default, session quota,
then the interactive callback (modelled as a pure function) or the
fail-closed no-callback denial. -/
def evaluatePolicyStage (policy : ApprovalPolicy)
    (sessionTimeout maxApprovalsPerSession : Nat)
    (callback : Option (PermissionRequest → Bool))
    (now : Int) (state : SessionState) (req : PermissionRequest) :
    PermissionResult × SessionState :=
  if policy.autoApprove.contains req.riskLevel then
    (⟨true, none, req.riskLevel == .MODIFY⟩, state)
  else if !(policy.requireConfirmation.contains req.riskLevel) then
    (⟨!policy.denyByDefault,
      if policy.denyByDefault then some "Denied by policy" else none, false⟩, state)
  else
    let (ok, state1) := checkSessionLimit sessionTimeout maxApprovalsPerSession now
      req.toolName state
    if !ok then
      (⟨false, some ("Session approval limit reached for " ++ req.toolName), false⟩, state1)
    else
      match callback with
      | some cb =>
        let userApproved := cb req
        (⟨userApproved,
          if userApproved then none else some "User denied permission",
          req.riskLevel == .MODIFY⟩, state1)
      | none =>
        (⟨false, some "No permission callback configured for interactive confirmation",
          false⟩, state1)

/-- evaluate (enhanced-permission-guard.ts lines 172-245): the three
short-circuiting whitelist stages in source order, then the policy
stage. -/
def evaluate (wl : WhitelistConfig) (policy : ApprovalPolicy)
    (sessionTimeout maxApprovalsPerSession : Nat)
    (callback : Option (PermissionRequest → Bool))
    (parseHostname : String → Option String)
    (now : Int) (state : SessionState) (req : PermissionRequest) :
    PermissionResult × SessionState :=
  let t := req.target.getD ""
  let cmdCheck := isCommandAllowed wl t
  let pathCheck := isPathAllowed wl t
  let domainCheck := isDomainAllowed wl parseHostname t
  if req.action == "shell" && targetTruthy req.target && !cmdCheck.allowed then
    (⟨false, cmdCheck.reason, false⟩, state)
  else if targetTruthy req.target && !(jsStartsWith t "http") && !pathCheck.allowed then
    (⟨false, pathCheck.reason, false⟩, state)
  else if targetTruthy req.target && jsStartsWith t "http" && !domainCheck.allowed then
    (⟨false, domainCheck.reason, false⟩, state)
  else
    evaluatePolicyStage policy sessionTimeout maxApprovalsPerSession callback now state req

/-- Predicate for a request passing all three whitelist stages of
evaluate (negation of each early-return guard). -/
def passesWhitelist (wl : WhitelistConfig) (parseHostname : String → Option String)
    (req : PermissionRequest) : Bool :=
  let t := req.target.getD ""
  !(req.action == "shell" && targetTruthy req.target && !(isCommandAllowed wl t).allowed)
    && !(targetTruthy req.target && !(jsStartsWith t "http") && !(isPathAllowed wl t).allowed)
    && !(targetTruthy req.target && jsStartsWith t "http"
          && !(isDomainAllowed wl parseHostname t).allowed)

/-- RateLimitConfig from rate-limiter.ts. -/
structure RateLimitConfig where
  maxCalls : Nat
  windowMs : Nat
deriving Repr, DecidableEq

/-- RateLimitResult from rate-limiter.ts. -/
structure RateLimitResult where
  allowed : Bool
  remaining : Nat
  resetTime : Int
  retryAfter : Option Int
deriving Repr, DecidableEq

/-- ToolRateState from rate-limiter.ts: the per-tool timestamp list and
its config. -/
structure ToolRateState where
  calls : List Int
  config : RateLimitConfig
deriving Repr, DecidableEq

/-- DEFAULT_CONFIG from rate-limiter.ts lines 25-28. -/
def RATE_DEFAULT_CONFIG : RateLimitConfig := ⟨100, 60000⟩

/-- TOOL_SPECIFIC_CONFIGS lookup from rate-limiter.ts lines 30-36,
falling back to the default (line 45). -/
def toolSpecificConfig (toolName : String) : RateLimitConfig :=
  if toolName == "shell_execute" then ⟨20, 60000⟩
  else if toolName == "powershell_execute" then ⟨20, 60000⟩
  else if toolName == "file_read" then ⟨200, 60000⟩
  else if toolName == "file_write" then ⟨50, 60000⟩
  else if toolName == "file_delete" then ⟨20, 60000⟩
  else RATE_DEFAULT_CONFIG

/-- cleanOldCalls from rate-limiter.ts lines 51-54: keep only the
timestamps strictly inside the window. -/
def cleanOldCalls (state : ToolRateState) (now : Int) : ToolRateState :=
  { state with calls := state.calls.filter (fun time => time > now - (state.config.windowMs : Int)) }

/-- check from rate-limiter.ts lines 57-83, with Date.now() passed in as
now.  Returns the result and the pruned state. -/
def rateCheck (now : Int) (state : ToolRateState) : RateLimitResult × ToolRateState :=
  let state1 := cleanOldCalls state now
  let firstCall := state1.calls.head?
  let resetTime : Int :=
    match firstCall with
    | some f => f + (state1.config.windowMs : Int)
    | none => now + (state1.config.windowMs : Int)
  if state1.calls.length ≥ state1.config.maxCalls then
    (⟨false, 0, resetTime,
      some (match firstCall with
        | some f => f + (state1.config.windowMs : Int) - now
        | none => (state1.config.windowMs : Int))⟩, state1)
  else
    (⟨true, state1.config.maxCalls - state1.calls.length, resetTime, none⟩, state1)

/-- record from rate-limiter.ts lines 85-88: append Date.now(). -/
def rateRecord (now : Int) (state : ToolRateState) : ToolRateState :=
  { state with calls := state.calls ++ [now] }

/-- JavaScript runtime values as far as the tool validator inspects
them: undefined, null, booleans, numbers, strings, arrays, and plain
objects as association lists. -/
inductive JSValue where
  | undefinedV
  | null
  | bool (b : Bool)
  | num (n : Int)
  | str (s : String)
  | arr (xs : List JSValue)
  | obj (fields : List (String × JSValue))

/-- Test for the undefined value. -/
def isUndefinedV : JSValue → Bool
  | .undefinedV => true
  | _ => false

/-- Test for the null value. -/
def isNull : JSValue → Bool
  | .null => true
  | _ => false

/-- Result of the JavaScript typeof operator on a modelled value
(typeof null and typeof an array are both the string object). -/
def jsTypeof : JSValue → String
  | .undefinedV => "undefined"
  | .null => "object"
  | .bool _ => "boolean"
  | .num _ => "number"
  | .str _ => "string"
  | .arr _ => "object"
  | .obj _ => "object"

/-- Array.isArray on a modelled value. -/
def jsIsArray : JSValue → Bool
  | .arr _ => true
  | _ => false

/-- Property read v[key] on a modelled value: undefined on anything that
is not a plain object carrying the key (string-keyed reads on the other
shapes the validator can reach always yield undefined). -/
def getField (v : JSValue) (key : String) : JSValue :=
  match v with
  | .obj fields => (((fields.find? (fun p => p.1 == key)).map (·.2))).getD .undefinedV
  | _ => .undefinedV

/-- ToolParameterProperty from tool-system types.ts: a type tag with
optional enum list, optional array item schema and optional nested
object property schemas. -/
inductive ToolParameterProperty where
  | mk (type : String) (enum : Option (List String))
      (items : Option ToolParameterProperty)
      (properties : Option (List (String × ToolParameterProperty)))

/-- Type tag of a property schema. -/
def ToolParameterProperty.type : ToolParameterProperty → String
  | .mk t _ _ _ => t

/-- Enum list of a property schema. -/
def ToolParameterProperty.enum : ToolParameterProperty → Option (List String)
  | .mk _ e _ _ => e

/-- Item schema of an array property schema. -/
def ToolParameterProperty.items : ToolParameterProperty → Option ToolParameterProperty
  | .mk _ _ i _ => i

/-- Nested property schemas of an object property schema. -/
def ToolParameterProperty.properties :
    ToolParameterProperty → Option (List (String × ToolParameterProperty))
  | .mk _ _ _ p => p

/-- Membership test of prop.enum.includes(value): the enum entries are
strings and the JavaScript includes comparison is strict equality, so
only a string value can match. -/
def enumIncludes (l : List String) : JSValue → Bool
  | .str s => l.contains s
  | _ => false

/-- ToolParameters from tool-system types.ts (the schema of one tool). -/
structure ToolParameters where
  type : String
  properties : List (String × ToolParameterProperty)
  required : Option (List String)

/-- ValidationResult from tool-validator.ts. -/
structure ValidationResult where
  valid : Bool
  errors : List String
deriving Repr, DecidableEq

/-- validateProperty (tool-validator.ts lines 13-49): the undefined and
null early return, the type check with its unreachable number-number
escape hatch kept verbatim, the enum membership check, and the
recursive array-item and nested-object checks. -/
def validateProperty (value : JSValue) (prop : ToolParameterProperty) (path : String) :
    List String :=
  match prop with
  | .mk ty enm itemsOpt propsOpt =>
    if isUndefinedV value || isNull value then
      []
    else
      let actualType := if jsIsArray value then "array" else jsTypeof value
      if actualType ≠ ty ∧ ¬(actualType = "number" ∧ ty = "number") then
        [path ++ ": expected " ++ ty ++ ", got " ++ actualType]
      else
        let enumErrors :=
          match enm with
          | some l => if !(enumIncludes l value) then
              [path ++ ": value must be one of [" ++ String.intercalate ", " l ++ "]"]
            else []
          | none => []
        let itemErrors :=
          match itemsOpt, value with
          | some itemProp, .arr xs =>
            if ty = "array" then
              (xs.enum.map (fun p =>
                validateProperty p.2 itemProp (path ++ "[" ++ toString p.1 ++ "]"))).flatten
            else []
          | _, _ => []
        let nestedErrors :=
          match propsOpt with
          | some props =>
            if ty == "object" && (jsTypeof value == "object") && !(isNull value) then
              (props.attach.map (fun kp =>
                let nestedValue := getField value kp.1.1
                if !(isUndefinedV nestedValue) then
                  validateProperty nestedValue kp.1.2 (path ++ "." ++ kp.1.1)
                else [])).flatten
            else []
          | none => []
        enumErrors ++ itemErrors ++ nestedErrors
termination_by sizeOf prop
decreasing_by
  · simp only [ToolParameterProperty.mk.sizeOf_spec, Option.some.sizeOf_spec]
    omega
  · have hmem : kp.1 ∈ props := kp.2
    have h2 := List.sizeOf_lt_of_mem hmem
    have h3 : sizeOf kp.1.2 < sizeOf kp.1 := by
      cases kp.1
      simp only [Prod.mk.sizeOf_spec]
      omega
    simp only [ToolParameterProperty.mk.sizeOf_spec, Option.some.sizeOf_spec]
    omega

/-- validateSchema (tool-validator.ts lines 65-96): reject non-object
parameter containers, collect missing-required errors (only undefined
counts as missing), then the per-property errors of every defined
field, in schema order. -/
def validateSchema (params : JSValue) (schema : ToolParameters) : ValidationResult :=
  if !(jsTypeof params == "object") || isNull params then
    ⟨false, ["Parameters must be an object"]⟩
  else
    let requiredErrors :=
      match schema.required with
      | some reqs => reqs.filterMap (fun req =>
          if isUndefinedV (getField params req) then
            some ("Missing required parameter: " ++ req)
          else none)
      | none => []
    let propErrors :=
      (schema.properties.map (fun kp =>
        let value := getField params kp.1
        if !(isUndefinedV value) then validateProperty value kp.2 kp.1 else [])).flatten
    let errors := requiredErrors ++ propErrors
    ⟨errors.length == 0, errors⟩

/-- Example READ-tier step. -/
def exStepRead : PlanStep := ⟨"s1", "file_read", "READ", none⟩

/-- Example SYSTEM-tier step with a description. -/
def exStepSystem : PlanStep := ⟨"s2", "shell", "SYSTEM", some "desc"⟩

/-- Example DELETE-tier step. -/
def exStepDelete : PlanStep := ⟨"s3", "file_delete", "DELETE", none⟩

/-- Example independent READ-tier step. -/
def exStepBrowse : PlanStep := ⟨"s4", "browser", "READ", none⟩

/-- Environment answering every permission prompt with approval. -/
def allowAll : Nat → Bool := fun _ => true

/-- Executor environment succeeding with v on every invocation. -/
def exExecOk : Nat → PlanStep → Except String String := fun _ _ => .ok "v"

/-- Executor environment throwing boom on the invocation of step index 1
and succeeding elsewhere. -/
def exExecBoom1 : Nat → PlanStep → Except String String :=
  fun i _ => if i == 1 then .error "boom" else .ok "v"

/-- Executor environment throwing boom on the invocation of step index 0
and succeeding elsewhere. -/
def exExecBoom0 : Nat → PlanStep → Except String String :=
  fun i _ => if i == 0 then .error "boom" else .ok "v"

/-- URL-parser environment on which every parse throws. -/
def noHost : String → Option String := fun _ => none

/-- Enhanced run exercising failFast: two independent READ steps, one
batch slot, the first executor invocation throws, every permission
granted and the plan approved. -/
def c2FailFastOut : EnhancedRunOutput :=
  EnhancedExecutionEngine.execute "g"
    (.ok [⟨"a", "file_read", "READ", none⟩, ⟨"b", "browser", "READ", none⟩])
    true allowAll exExecBoom0 none 1 true

/-- Base-engine run on an empty plan with the plan approved. -/
def c3BaseOut : RunOutput :=
  ExecutionEngine.run "g" (.ok []) true allowAll exExecOk none

/-- MODIFY-tier request without a target: it trivially passes every
whitelist stage. -/
def c4Req : PermissionRequest := ⟨"t", "write", none, .MODIFY, "d"⟩

/-- Evaluation of c4Req under the default configuration with a callback
that denies. -/
def c4Out : PermissionResult :=
  (evaluate DEFAULT_WHITELIST DEFAULT_APPROVAL_POLICY 300000 100
    (some (fun _ => false)) noHost 0 ⟨[], 0⟩ c4Req).1

/-- Whitelist whose only denied command pattern begins with a space. -/
def c8Wl : WhitelistConfig := { DEFAULT_WHITELIST with deniedCommands := [" a"] }

/-- Shell request whose target contains the denied pattern of c8Wl only
inside its leading whitespace. -/
def c8Req : PermissionRequest := ⟨"t", "shell", some "  AB", .READ, "d"⟩

/-- Evaluation of c8Req against c8Wl under the default policy. -/
def c8Out : PermissionResult :=
  (evaluate c8Wl DEFAULT_APPROVAL_POLICY 300000 100 none noHost 0 ⟨[], 0⟩ c8Req).1

/-- Shell request whose target contains rm -rf up to case. -/
def c8WitReq : PermissionRequest := ⟨"t", "shell", some "please RM -RF /", .SYSTEM, "d"⟩

/-- String property schema without enum, items or nested properties. -/
def exPropString : ToolParameterProperty := .mk "string" none none none

/-- Schema with a single required string field a. -/
def exSchemaA : ToolParameters := ⟨"object", [("a", exPropString)], some ["a"]⟩

/-- Specification shorthand for the StepResult the base engine records
for step index i: the fixed user-denied record when a high-risk prompt
is refused, otherwise the outcome of the single executor invocation. -/
def modelStepResult (perms : Nat → Bool) (exec : Nat → PlanStep → Except String String)
    (i : Nat) (step : PlanStep) : StepResult :=
  if isHighRisk step && !(perms i) then ⟨step.id, false, none, some "用户拒绝"⟩
  else (execOutcome i step (exec i step)).2

/-- Formatter that always throws. -/
def exFmtThrow : String → List StepResult → Except String String :=
  fun _ _ => .error "fmtboom"

theorem evaluate_of_passesWhitelist (wl : WhitelistConfig) (policy : ApprovalPolicy)
    (st ma : Nat) (cb : Option (PermissionRequest → Bool))
    (ph : String → Option String) (now : Int) (state : SessionState)
    (req : PermissionRequest) (h : passesWhitelist wl ph req = true) :
    evaluate wl policy st ma cb ph now state req
      = evaluatePolicyStage policy st ma cb now state req := by
  unfold passesWhitelist at h
  rw [Bool.and_eq_true, Bool.and_eq_true] at h
  obtain ⟨⟨h1, h2⟩, h3⟩ := h
  rw [Bool.not_eq_true'] at h1 h2 h3
  unfold evaluate
  simp only [h1, h2, h3, Bool.false_eq_true, if_false]

/-- C4 counterexample: the MODIFY-tier request c4Req passes every
whitelist stage, the interactive callback denies it, and the returned
result still carries requiresBackup = true, contradicting the claim
that a denied MODIFY request has requiresBackup = false. -/
theorem c4_denied_modify_backup_counterexample :
    passesWhitelist DEFAULT_WHITELIST noHost c4Req = true
      ∧ c4Out.granted = false ∧ c4Out.requiresBackup = true := by
  decide

/-- C4 (amended): for a request passing the whitelist stages,
requiresBackup is true exactly when the risk tier is MODIFY and the
evaluation reaches the auto-approve branch or the interactive callback
(whether or not the callback grants); every other path reports
requiresBackup = false. -/
theorem c4_requiresBackup_characterization (wl : WhitelistConfig)
    (policy : ApprovalPolicy) (st ma : Nat)
    (cb : Option (PermissionRequest → Bool)) (ph : String → Option String)
    (now : Int) (state : SessionState) (req : PermissionRequest)
    (h : passesWhitelist wl ph req = true) :
    (evaluate wl policy st ma cb ph now state req).1.requiresBackup
      = ((req.riskLevel == RiskLevel.MODIFY)
         && (policy.autoApprove.contains req.riskLevel
             || (policy.requireConfirmation.contains req.riskLevel
                 && (checkSessionLimit st ma now req.toolName state).1
                 && cb.isSome))) := by
  rw [evaluate_of_passesWhitelist wl policy st ma cb ph now state req h]
  unfold evaluatePolicyStage
  rcases hcs : checkSessionLimit st ma now req.toolName state with ⟨ok, state1⟩
  by_cases ha : policy.autoApprove.contains req.riskLevel = true
  · simp [ha]
  · by_cases hr : policy.requireConfirmation.contains req.riskLevel = true
    · cases ok
      · rcases cb with _ | cbf <;> simp [ha, hr, hcs]
      · rcases cb with _ | cbf <;> simp [ha, hr, hcs]
    · simp [ha, hr, Bool.eq_false_iff.mpr ha, Bool.eq_false_iff.mpr hr]

/-- C4 witness: the characterization applied to a concrete READ-tier
request under the default configuration with a granting callback. -/
theorem c4_requiresBackup_characterization_witness :
    (evaluate DEFAULT_WHITELIST DEFAULT_APPROVAL_POLICY 300000 100
        (some (fun _ => true)) noHost 0 ⟨[], 0⟩
        ⟨"t", "read", none, .READ, "d"⟩).1.requiresBackup
      = ((RiskLevel.READ == RiskLevel.MODIFY)
         && (DEFAULT_APPROVAL_POLICY.autoApprove.contains RiskLevel.READ
             || (DEFAULT_APPROVAL_POLICY.requireConfirmation.contains RiskLevel.READ
                 && (checkSessionLimit 300000 100 0 "t" ⟨[], 0⟩).1
                 && (some (fun (_ : PermissionRequest) => true)).isSome))) :=
  c4_requiresBackup_characterization DEFAULT_WHITELIST DEFAULT_APPROVAL_POLICY
    300000 100 (some (fun _ => true)) noHost 0 ⟨[], 0⟩
    ⟨"t", "read", none, .READ, "d"⟩ (by decide)

/-- C7: when the target starts with http and the URL parser throws, the
domain check returns allowed with no reason for every whitelist, the
evaluation outcome is independent of the denied and allowed domain
lists, and whenever the shell-command stage does not fire the
evaluation proceeds directly to the risk-tier policy stage. -/
theorem c7_domain_check_fail_open (wl : WhitelistConfig) (policy : ApprovalPolicy)
    (st ma : Nat) (cb : Option (PermissionRequest → Bool))
    (ph : String → Option String) (now : Int) (state : SessionState)
    (req : PermissionRequest) (t : String)
    (ht : req.target = some t) (hs : jsStartsWith t "http" = true) (hp : ph t = none) :
    (∀ wl' : WhitelistConfig, isDomainAllowed wl' ph t = ⟨true, none⟩)
    ∧ (∀ dd ad : List String,
        evaluate { wl with deniedDomains := dd, allowedDomains := ad }
            policy st ma cb ph now state req
          = evaluate wl policy st ma cb ph now state req)
    ∧ ((req.action == "shell" && targetTruthy req.target
          && !(isCommandAllowed wl t).allowed) = false →
        evaluate wl policy st ma cb ph now state req
          = evaluatePolicyStage policy st ma cb now state req) := by
  have htD : req.target.getD "" = t := by rw [ht]; rfl
  have hdom : ∀ wl' : WhitelistConfig, isDomainAllowed wl' ph t = ⟨true, none⟩ := by
    intro wl'
    unfold isDomainAllowed
    rw [hp]
  refine ⟨hdom, ?_, ?_⟩
  · intro dd ad
    unfold evaluate
    simp only [htD, hdom, hs, isCommandAllowed, isPathAllowed, Bool.not_true,
      Bool.and_false, Bool.false_and, Bool.and_true, if_false]
  · intro hcmd
    unfold evaluate
    simp only [htD, hdom, hs, hcmd, Bool.not_true, Bool.and_false, Bool.false_and,
      Bool.and_true, Bool.false_eq_true, if_false]

/-- C7 witness: the fail-open behavior at a concrete unparseable
http target under the default configuration. -/
theorem c7_domain_check_fail_open_witness :
    (∀ wl' : WhitelistConfig, isDomainAllowed wl' noHost "http bad url" = ⟨true, none⟩)
    ∧ (∀ dd ad : List String,
        evaluate { DEFAULT_WHITELIST with deniedDomains := dd, allowedDomains := ad }
            DEFAULT_APPROVAL_POLICY 300000 100 none noHost 0 ⟨[], 0⟩
            ⟨"t", "open", some "http bad url", .READ, "d"⟩
          = evaluate DEFAULT_WHITELIST DEFAULT_APPROVAL_POLICY 300000 100 none noHost 0 ⟨[], 0⟩
            ⟨"t", "open", some "http bad url", .READ, "d"⟩)
    ∧ ((("open" == "shell") && targetTruthy (some "http bad url")
          && !(isCommandAllowed DEFAULT_WHITELIST "http bad url").allowed) = false →
        evaluate DEFAULT_WHITELIST DEFAULT_APPROVAL_POLICY 300000 100 none noHost 0 ⟨[], 0⟩
            ⟨"t", "open", some "http bad url", .READ, "d"⟩
          = evaluatePolicyStage DEFAULT_APPROVAL_POLICY 300000 100 none 0 ⟨[], 0⟩
            ⟨"t", "open", some "http bad url", .READ, "d"⟩) :=
  c7_domain_check_fail_open DEFAULT_WHITELIST DEFAULT_APPROVAL_POLICY 300000 100 none
    noHost 0 ⟨[], 0⟩ ⟨"t", "open", some "http bad url", .READ, "d"⟩ "http bad url"
    rfl (by decide) rfl

/-- C8 counterexample: with the denied pattern consisting of a space
followed by the letter a, the lowercased target of c8Req contains that
pattern, yet the evaluator grants the request: the occurrence lies in
the leading whitespace that the source trims away before comparing. -/
theorem c8_trim_gap_counterexample :
    jsIncludes (jsToLower "  AB") (jsToLower " a") = true
      ∧ c8Req.action = "shell" ∧ c8Req.target = some "  AB"
      ∧ c8Wl.deniedCommands = [" a"]
      ∧ c8Out.granted = true := by
  decide

/-- C8 (amended): for a shell request with a non-empty target, if the
lowercased and trimmed target contains some denylisted command pattern
(lowercased), the evaluator denies with a reason naming the first such
pattern, regardless of the risk tier, and leaves the session state
untouched. -/
theorem c8_denied_command_denies (wl : WhitelistConfig) (policy : ApprovalPolicy)
    (st ma : Nat) (cb : Option (PermissionRequest → Bool))
    (ph : String → Option String) (now : Int) (state : SessionState)
    (req : PermissionRequest) (t d : String)
    (ha : req.action = "shell") (ht : req.target = some t) (hne : t ≠ "")
    (hd : wl.deniedCommands.find? (fun p => jsIncludes (jsTrim (jsToLower t)) (jsToLower p)) = some d) :
    evaluate wl policy st ma cb ph now state req
      = (⟨false, some ("Command contains denied pattern: " ++ d), false⟩, state) := by
  have htD : req.target.getD "" = t := by rw [ht]; rfl
  have htt : targetTruthy req.target = true := by
    rw [ht]
    simpa [targetTruthy] using hne
  have hcmd : isCommandAllowed wl t = ⟨false, some ("Command contains denied pattern: " ++ d)⟩ := by
    simp only [isCommandAllowed]
    rw [hd]
  unfold evaluate
  simp only [htD, ha, htt, hcmd, Bool.and_true, Bool.true_and, Bool.not_false,
    beq_self_eq_true, if_true]

/-- C8 witness: the amended statement applied to a SYSTEM-tier shell
request whose target contains rm -rf up to case, under the default
denylist. -/
theorem c8_denied_command_denies_witness :
    evaluate DEFAULT_WHITELIST DEFAULT_APPROVAL_POLICY 300000 100 none noHost 0 ⟨[], 0⟩ c8WitReq
      = (⟨false, some ("Command contains denied pattern: " ++ "rm -rf"), false⟩, ⟨[], 0⟩) :=
  c8_denied_command_denies DEFAULT_WHITELIST DEFAULT_APPROVAL_POLICY 300000 100 none
    noHost 0 ⟨[], 0⟩ c8WitReq "please RM -RF /" "rm -rf" rfl rfl (by decide) (by decide)

/-- C9: a tool state holding exactly maxCalls in-window timestamps is
denied with remaining 0 on an immediate check, allowed again once time
advances past the window, and in general a check prunes every timestamp
older than now minus windowMs and allows exactly when the pruned list
is shorter than maxCalls. -/
theorem c9_rate_limiter_window (state : ToolRateState) (now : Int)
    (h1 : state.calls.length = state.config.maxCalls)
    (h2 : ∀ t ∈ state.calls, now - (state.config.windowMs : Int) < t ∧ t ≤ now)
    (h3 : 0 < state.config.maxCalls) :
    ((rateCheck now state).1.allowed = false ∧ (rateCheck now state).1.remaining = 0)
    ∧ (rateCheck (now + (state.config.windowMs : Int) + 1) state).1.allowed = true
    ∧ (∀ (s : ToolRateState) (n : Int),
        (rateCheck n s).1.allowed
          = decide ((s.calls.filter
              (fun time => time > n - (s.config.windowMs : Int))).length < s.config.maxCalls)
        ∧ (rateCheck n s).2.calls
            = s.calls.filter (fun time => time > n - (s.config.windowMs : Int))) := by
  refine ⟨?_, ?_, ?_⟩
  · have hfil : state.calls.filter
        (fun time => decide (time > now - (state.config.windowMs : Int))) = state.calls :=
      List.filter_eq_self.mpr (fun t ht => decide_eq_true (h2 t ht).1)
    simp only [rateCheck, cleanOldCalls, hfil, h1, ge_iff_le, le_refl, if_true]
    constructor <;> simp
  · have hfil : state.calls.filter
        (fun time =>
          decide (time > now + (state.config.windowMs : Int) + 1
            - (state.config.windowMs : Int))) = [] := by
      apply List.filter_eq_nil_iff.mpr
      intro t ht
      have h4 := (h2 t ht).2
      simp only [decide_eq_true_eq]
      omega
    simp only [rateCheck, cleanOldCalls, hfil, List.length_nil, ge_iff_le]
    have h5 : ¬(state.config.maxCalls ≤ 0) := by omega
    simp only [h5, if_false]
  · intro s n
    simp only [rateCheck, cleanOldCalls, ge_iff_le]
    constructor
    · by_cases hle : s.config.maxCalls ≤ (s.calls.filter
          (fun time => decide (time > n - (s.config.windowMs : Int)))).length
      · simp only [hle, if_true]
        have : ¬((s.calls.filter
            (fun time => decide (time > n - (s.config.windowMs : Int)))).length
              < s.config.maxCalls) := by omega
        simp [this]
      · simp only [hle, if_false]
        have : (s.calls.filter
            (fun time => decide (time > n - (s.config.windowMs : Int)))).length
              < s.config.maxCalls := by omega
        simp [this]
    · by_cases hle : s.config.maxCalls ≤ (s.calls.filter
          (fun time => decide (time > n - (s.config.windowMs : Int)))).length
      · simp only [hle, if_true]
      · simp only [hle, if_false]

/-- C9 witness: two recorded timestamps at time 5 under a config of two
calls per 1000ms window: immediate denial with remaining 0, then
allowance at time 1006. -/
theorem c9_rate_limiter_window_witness :
    ((rateCheck 5 ⟨[5, 5], ⟨2, 1000⟩⟩).1.allowed = false
      ∧ (rateCheck 5 ⟨[5, 5], ⟨2, 1000⟩⟩).1.remaining = 0)
    ∧ (rateCheck (5 + ((1000 : Nat) : Int) + 1) ⟨[5, 5], ⟨2, 1000⟩⟩).1.allowed = true :=
  ⟨(c9_rate_limiter_window ⟨[5, 5], ⟨2, 1000⟩⟩ 5 rfl (by decide) (by decide)).1,
    (c9_rate_limiter_window ⟨[5, 5], ⟨2, 1000⟩⟩ 5 rfl (by decide) (by decide)).2.1⟩

/-- C10: a required field that is present but null is not flagged by the
required check (which only flags undefined) and produces no property
error (validateProperty returns no errors for null), so validation
succeeds when no other field has an error. -/
theorem c10_null_required_field (schema : ToolParameters)
    (fields : List (String × JSValue)) (reqs : List String) (f : String)
    (hr : schema.required = some reqs) (hfr : f ∈ reqs)
    (hnull : getField (.obj fields) f = .null)
    (hreq : reqs.all (fun r => !(isUndefinedV (getField (.obj fields) r))) = true)
    (hprops : schema.properties.all
        (fun kp => (validateProperty (getField (.obj fields) kp.1) kp.2 kp.1).isEmpty) = true) :
    validateSchema (.obj fields) schema = ⟨true, []⟩
    ∧ (∀ (prop : ToolParameterProperty) (path : String),
        validateProperty .null prop path = []) := by
  have hnullProp : ∀ (prop : ToolParameterProperty) (path : String),
      validateProperty .null prop path = [] := by
    intro prop path
    cases prop
    rw [validateProperty.eq_def]
    simp [isUndefinedV, isNull]
  refine ⟨?_, hnullProp⟩
  rw [List.all_eq_true] at hreq hprops
  have hre : reqs.filterMap (fun req =>
      if isUndefinedV (getField (JSValue.obj fields) req) then
        some ("Missing required parameter: " ++ req)
      else none) = [] := by
    apply List.filterMap_eq_nil_iff.mpr
    intro r hrm
    have h5 := hreq r hrm
    simp only [Bool.not_eq_true'] at h5
    simp [h5]
  have hpe : (schema.properties.map (fun kp =>
      if !(isUndefinedV (getField (JSValue.obj fields) kp.1)) then
        validateProperty (getField (JSValue.obj fields) kp.1) kp.2 kp.1
      else [])).flatten = [] := by
    apply List.flatten_eq_nil_iff.mpr
    intro l hl
    rw [List.mem_map] at hl
    obtain ⟨kp, hkp, hlv⟩ := hl
    have h6 := hprops kp hkp
    rw [List.isEmpty_iff] at h6
    subst hlv
    by_cases hu : isUndefinedV (getField (JSValue.obj fields) kp.1) = true
    · simp [hu]
    · simp only [Bool.not_eq_true] at hu
      simp [hu, h6]
  simp only [validateSchema, hr, jsTypeof, isNull, beq_self_eq_true, Bool.not_true,
    Bool.or_self, Bool.false_eq_true, if_false]
  rw [hre, hpe]
  simp

/-- C10 witness: a schema requiring field a validates successfully when
a is present but null. -/
theorem c10_null_required_field_witness :
    validateSchema (.obj [("a", .null)]) exSchemaA = ⟨true, []⟩ :=
  (c10_null_required_field exSchemaA [("a", .null)] ["a"] "a" rfl (by decide) rfl
    (by decide)
    (by simp [exSchemaA, exPropString, getField, validateProperty, isUndefinedV, isNull])).1

theorem processStep_events_filter (perms : Nat → Bool)
    (exec : Nat → PlanStep → Except String String) (total i : Nat) (step : PlanStep) :
    (processStep perms exec total i step).1.filter isConfirmPermissionEvent
      = if isHighRisk step then [permPromptEvent step] else [] := by
  unfold processStep
  by_cases hr : isHighRisk step = true
  · by_cases hp : perms i = true
    · cases hex : exec i step <;>
        simp [hr, hp, hex, execOutcome, isConfirmPermissionEvent, permPromptEvent]
    · simp only [Bool.not_eq_true] at hp
      simp [hr, hp, isConfirmPermissionEvent, permPromptEvent]
  · simp only [Bool.not_eq_true] at hr
    cases hex : exec i step <;>
      simp [hr, hex, execOutcome, isConfirmPermissionEvent]

theorem processStep_calls (perms : Nat → Bool)
    (exec : Nat → PlanStep → Except String String) (total i : Nat) (step : PlanStep) :
    (processStep perms exec total i step).2.1
      = if !(isHighRisk step) || perms i then [(i, step)] else [] := by
  unfold processStep
  by_cases hr : isHighRisk step = true
  · by_cases hp : perms i = true
    · cases hex : exec i step <;> simp [hr, hp, hex, execOutcome]
    · simp only [Bool.not_eq_true] at hp
      simp [hr, hp]
  · simp only [Bool.not_eq_true] at hr
    cases hex : exec i step <;> simp [hr, hex, execOutcome]

theorem processStep_result (perms : Nat → Bool)
    (exec : Nat → PlanStep → Except String String) (total i : Nat) (step : PlanStep) :
    (processStep perms exec total i step).2.2 = modelStepResult perms exec i step := by
  unfold processStep modelStepResult
  by_cases hr : isHighRisk step = true
  · by_cases hp : perms i = true
    · cases hex : exec i step <;> simp [hr, hp, hex, execOutcome]
    · simp only [Bool.not_eq_true] at hp
      simp [hr, hp]
  · simp only [Bool.not_eq_true] at hr
    cases hex : exec i step <;> simp [hr, hex, execOutcome]

theorem stepLoop_cons (perms : Nat → Bool)
    (exec : Nat → PlanStep → Except String String) (total i : Nat)
    (step : PlanStep) (rest : List PlanStep) :
    stepLoop perms exec total i (step :: rest)
      = ((processStep perms exec total i step).1
            ++ (stepLoop perms exec total (i + 1) rest).1,
         (processStep perms exec total i step).2.1
            ++ (stepLoop perms exec total (i + 1) rest).2.1,
         (processStep perms exec total i step).2.2
            :: (stepLoop perms exec total (i + 1) rest).2.2) := by
  rcases hps : processStep perms exec total i step with ⟨evs, calls, res⟩
  rcases hsl : stepLoop perms exec total (i + 1) rest with ⟨evs', calls', rs'⟩
  simp [stepLoop, hps, hsl]

theorem stepLoop_events_confirm_filter (perms : Nat → Bool)
    (exec : Nat → PlanStep → Except String String) (total : Nat) :
    ∀ (steps : List PlanStep) (i : Nat),
    (stepLoop perms exec total i steps).1.filter isConfirmPermissionEvent
      = ((List.enumFrom i steps).filter (fun p => isHighRisk p.2)).map
          (fun p => permPromptEvent p.2) := by
  intro steps
  induction steps with
  | nil => intro i; simp [stepLoop]
  | cons step rest ih =>
    intro i
    rw [stepLoop_cons]
    simp only [List.filter_append, List.enumFrom_cons]
    rw [processStep_events_filter, ih (i + 1)]
    by_cases hr : isHighRisk step = true
    · simp [List.filter_cons, hr]
    · simp only [Bool.not_eq_true] at hr
      simp [List.filter_cons, hr]

theorem stepLoop_calls_eq (perms : Nat → Bool)
    (exec : Nat → PlanStep → Except String String) (total : Nat) :
    ∀ (steps : List PlanStep) (i : Nat),
    (stepLoop perms exec total i steps).2.1
      = (List.enumFrom i steps).filter (fun p => !(isHighRisk p.2) || perms p.1) := by
  intro steps
  induction steps with
  | nil => intro i; simp [stepLoop]
  | cons step rest ih =>
    intro i
    rw [stepLoop_cons]
    simp only [List.enumFrom_cons]
    rw [processStep_calls, ih (i + 1)]
    by_cases hc : (!(isHighRisk step) || perms i) = true
    · simp [List.filter_cons, hc]
    · simp only [Bool.not_eq_true] at hc
      simp [List.filter_cons, hc]

theorem stepLoop_results_eq (perms : Nat → Bool)
    (exec : Nat → PlanStep → Except String String) (total : Nat) :
    ∀ (steps : List PlanStep) (i : Nat),
    (stepLoop perms exec total i steps).2.2
      = (List.enumFrom i steps).map (fun p => modelStepResult perms exec p.1 p.2) := by
  intro steps
  induction steps with
  | nil => intro i; simp [stepLoop]
  | cons step rest ih =>
    intro i
    rw [stepLoop_cons]
    simp only [List.enumFrom_cons, List.map_cons]
    rw [processStep_result, ih (i + 1)]

theorem formatPhase_no_confirm (goal : String)
    (fm : Option (String → List StepResult → Except String String))
    (rs : List StepResult) :
    (formatPhase goal fm rs).filter isConfirmPermissionEvent = [] := by
  unfold formatPhase
  rcases fm with _ | f
  · simp [isConfirmPermissionEvent]
  · cases hs : rs.any (·.success)
    · simp [hs, isConfirmPermissionEvent]
    · cases hf : f goal rs <;> simp [hs, hf, isConfirmPermissionEvent]

theorem run_events_eq (goal : String) (steps : List PlanStep) (perms : Nat → Bool)
    (exec : Nat → PlanStep → Except String String)
    (formatter : Option (String → List StepResult → Except String String)) :
    (ExecutionEngine.run goal (.ok steps) true perms exec formatter).events
      = [Event.status "正在规划..." "planning",
         Event.confirmPlan goal steps (steps.filter isHighRisk),
         Event.status "正在执行..." "executing"]
        ++ (stepLoop perms exec steps.length 0 steps).1
        ++ formatPhase goal formatter (stepLoop perms exec steps.length 0 steps).2.2 := by
  rcases hsl : stepLoop perms exec steps.length 0 steps with ⟨evs, calls, rs⟩
  simp [ExecutionEngine.run, hsl]

theorem run_calls_eq (goal : String) (steps : List PlanStep) (perms : Nat → Bool)
    (exec : Nat → PlanStep → Except String String)
    (formatter : Option (String → List StepResult → Except String String)) :
    (ExecutionEngine.run goal (.ok steps) true perms exec formatter).calls
      = (stepLoop perms exec steps.length 0 steps).2.1 := by
  rcases hsl : stepLoop perms exec steps.length 0 steps with ⟨evs, calls, rs⟩
  simp [ExecutionEngine.run, hsl]

theorem run_result_steps_eq (goal : String) (steps : List PlanStep) (perms : Nat → Bool)
    (exec : Nat → PlanStep → Except String String)
    (formatter : Option (String → List StepResult → Except String String)) :
    (ExecutionEngine.run goal (.ok steps) true perms exec formatter).result.steps
      = (stepLoop perms exec steps.length 0 steps).2.2 := by
  rcases hsl : stepLoop perms exec steps.length 0 steps with ⟨evs, calls, rs⟩
  simp [ExecutionEngine.run, hsl]

theorem executeSingleStep_events_filter (perms : Nat → Bool)
    (exec : Nat → PlanStep → Except String String) (totalSteps stepIndex : Nat)
    (step : PlanStep) :
    (executeSingleStep perms exec totalSteps stepIndex step).1.filter
        isConfirmPermissionEvent
      = if isHighRisk step then [permPromptEvent step] else [] := by
  unfold executeSingleStep
  by_cases hr : isHighRisk step = true
  · by_cases hp : perms stepIndex = true
    · cases hex : exec stepIndex step <;>
        simp [hr, hp, hex, execOutcome, isConfirmPermissionEvent, permPromptEvent]
    · simp only [Bool.not_eq_true] at hp
      simp [hr, hp, isConfirmPermissionEvent, permPromptEvent]
  · simp only [Bool.not_eq_true] at hr
    cases hex : exec stepIndex step <;>
      simp [hr, hex, execOutcome, isConfirmPermissionEvent]

/-- C1: in an approved serial run the confirm_permission events are
exactly one per SYSTEM or DELETE step, in plan order, and the enhanced
single-step executor emits the prompt exactly when the step is
high-risk; READ and MODIFY steps never prompt. -/
theorem c1_confirm_permission_iff_high_risk (goal : String) (steps : List PlanStep)
    (perms : Nat → Bool) (exec : Nat → PlanStep → Except String String)
    (formatter : Option (String → List StepResult → Except String String)) :
    ((ExecutionEngine.run goal (.ok steps) true perms exec formatter).events.filter
        isConfirmPermissionEvent
      = (steps.enum.filter (fun p => isHighRisk p.2)).map (fun p => permPromptEvent p.2))
    ∧ (∀ (totalSteps stepIndex : Nat) (step : PlanStep),
        (executeSingleStep perms exec totalSteps stepIndex step).1.filter
            isConfirmPermissionEvent
          = if isHighRisk step then [permPromptEvent step] else []) := by
  constructor
  · rw [run_events_eq]
    simp only [List.filter_append]
    rw [stepLoop_events_confirm_filter, formatPhase_no_confirm]
    simp [isConfirmPermissionEvent, List.enum]
  · intro totalSteps stepIndex step
    exact executeSingleStep_events_filter perms exec totalSteps stepIndex step

/-- C3 counterexample: on an empty plan the base ExecutionEngine still
emits a confirm_plan event (and then waits for the plan decision),
contradicting the claim that no confirm_plan is emitted when the
planner returns an empty step list. -/
theorem c3_base_engine_empty_plan_counterexample :
    c3BaseOut.events.filter isConfirmPlanEvent = [Event.confirmPlan "g" [] []]
      ∧ c3BaseOut.result = ⟨true, none, []⟩ := by
  decide

/-- C3 (amended): the enhanced engine returns success with no steps, no
executor invocation and no confirm_plan event on an empty plan, without
consulting the plan decision; the base engine still emits confirm_plan
and waits for plan approval even for an empty plan. -/
theorem c3_enhanced_empty_plan_trivial_success (goal : String) (planApproved : Bool)
    (perms : Nat → Bool) (exec : Nat → PlanStep → Except String String)
    (formatter : Option (String → List (Option StepResult) → Except String String))
    (maxConcurrent : Nat) (failFast : Bool) :
    EnhancedExecutionEngine.execute goal (.ok []) planApproved perms exec formatter
        maxConcurrent failFast
      = ⟨[.status "正在规划..." "planning", .status "无需执行" "executing",
          .result true none none], [], [], true, none, []⟩
    ∧ (EnhancedExecutionEngine.execute goal (.ok []) planApproved perms exec formatter
        maxConcurrent failFast).events.filter isConfirmPlanEvent = [] := by
  constructor
  · rfl
  · rfl

/-- C5: an executor exception is recorded as that step's failure with
the thrown message, every other step still runs, and the executor is
invoked exactly once per non-denied step in plan order; in particular
for the three-step plan where only the second invocation throws, the
results are success, failure with the thrown message, success, and the
executor runs three times. -/
theorem c5_executor_throw_records_and_continues (goal : String) (steps : List PlanStep)
    (perms : Nat → Bool) (exec : Nat → PlanStep → Except String String)
    (formatter : Option (String → List StepResult → Except String String)) :
    ((ExecutionEngine.run goal (.ok steps) true perms exec formatter).result.steps.length
        = steps.length)
    ∧ (∀ (i : Nat) (step : PlanStep) (e : String), steps[i]? = some step →
        (isHighRisk step = false ∨ perms i = true) → exec i step = .error e →
        (ExecutionEngine.run goal (.ok steps) true perms exec formatter).result.steps[i]?
          = some ⟨step.id, false, none, some e⟩)
    ∧ ((ExecutionEngine.run goal (.ok steps) true perms exec formatter).calls
        = steps.enum.filter (fun p => !(isHighRisk p.2) || perms p.1))
    ∧ ((ExecutionEngine.run "g" (.ok [exStepRead, exStepSystem, exStepDelete]) true
          allowAll exExecBoom1 none).result.steps
        = [⟨"s1", true, some "v", none⟩, ⟨"s2", false, none, some "boom"⟩,
           ⟨"s3", true, some "v", none⟩]
      ∧ (ExecutionEngine.run "g" (.ok [exStepRead, exStepSystem, exStepDelete]) true
          allowAll exExecBoom1 none).calls.length = 3) := by
  refine ⟨?_, ?_, ?_, by decide⟩
  · rw [run_result_steps_eq, stepLoop_results_eq]
    simp [List.enum]
  · intro i step e hi hnd hex
    rw [run_result_steps_eq, stepLoop_results_eq]
    have henum : (List.enumFrom 0 steps)[i]? = some (i, step) := by
      rw [show List.enumFrom 0 steps = steps.enum from rfl, List.getElem?_enum, hi]
      rfl
    rw [List.getElem?_map, henum]
    have hmr : modelStepResult perms exec i step = ⟨step.id, false, none, some e⟩ := by
      unfold modelStepResult
      rcases hnd with hnd | hnd
      · simp [hnd, hex, execOutcome]
      · simp [hnd, hex, execOutcome]
    simp [hmr]
  · rw [run_calls_eq, stepLoop_calls_eq]
    rfl

/-- C5 witness: the general statement applied to the three-step plan at
the failing middle step, discharging each hypothesis concretely. -/
theorem c5_executor_throw_records_and_continues_witness :
    (ExecutionEngine.run "g" (.ok [exStepRead, exStepSystem, exStepDelete]) true
        allowAll exExecBoom1 none).result.steps[1]?
      = some ⟨"s2", false, none, some "boom"⟩ :=
  (c5_executor_throw_records_and_continues "g" [exStepRead, exStepSystem, exStepDelete]
      allowAll exExecBoom1 none).2.1 1 exStepSystem "boom" rfl (Or.inr rfl) rfl

theorem run_result_success_eq (goal : String) (steps : List PlanStep) (perms : Nat → Bool)
    (exec : Nat → PlanStep → Except String String)
    (formatter : Option (String → List StepResult → Except String String)) :
    (ExecutionEngine.run goal (.ok steps) true perms exec formatter).result.success
      = ((stepLoop perms exec steps.length 0 steps).2.2).all (·.success) := by
  rcases hsl : stepLoop perms exec steps.length 0 steps with ⟨evs, calls, rs⟩
  simp [ExecutionEngine.run, hsl]

theorem enhanced_execute_components (goal : String) (steps : List PlanStep)
    (perms : Nat → Bool) (exec : Nat → PlanStep → Except String String)
    (fm : Option (String → List (Option StepResult) → Except String String))
    (mc : Nat) (ff : Bool) (h : steps.length ≠ 0) :
    EnhancedExecutionEngine.execute goal (.ok steps) true perms exec fm mc ff
      = ⟨[Event.status "正在规划..." "planning",
          Event.confirmPlan goal steps (steps.filter isHighRisk),
          Event.status "正在执行..." "executing"]
          ++ (executeSteps perms exec mc ff steps).1
          ++ enhancedFormatPhase goal fm (executeSteps perms exec mc ff steps).2.2.2,
         (executeSteps perms exec mc ff steps).2.1,
         (executeSteps perms exec mc ff steps).2.2.1,
         sparseAllSuccess (executeSteps perms exec mc ff steps).2.2.2,
         none,
         (executeSteps perms exec mc ff steps).2.2.2⟩ := by
  rcases hes : executeSteps perms exec mc ff steps with ⟨evs, calls, batches, rs⟩
  simp [EnhancedExecutionEngine.execute, h, hes]

/-- C6: with a formatter supplied and at least one successful step, the
base engine emits the formatted text on formatter success and falls
back to the raw step results on formatter failure, while the returned
run success stays the conjunction of step successes; the enhanced
engine shows the same fallback and success coupling. -/
theorem c6_formatter_fallback (goal : String) (steps : List PlanStep) (perms : Nat → Bool)
    (exec : Nat → PlanStep → Except String String)
    (f : String → List StepResult → Except String String)
    (f' : String → List (Option StepResult) → Except String String)
    (mc : Nat) (ff : Bool) :
    ((ExecutionEngine.run goal (.ok steps) true perms exec (some f)).result.steps.any
        (·.success) = true →
      (∀ s, f goal (ExecutionEngine.run goal (.ok steps) true perms exec (some f)).result.steps
          = .ok s →
        Event.result true (some (.formatted s)) none
          ∈ (ExecutionEngine.run goal (.ok steps) true perms exec (some f)).events)
      ∧ (∀ e, f goal (ExecutionEngine.run goal (.ok steps) true perms exec
            (some f)).result.steps = .error e →
        Event.result true (some (.raw (ExecutionEngine.run goal (.ok steps) true perms exec
            (some f)).result.steps)) none
          ∈ (ExecutionEngine.run goal (.ok steps) true perms exec (some f)).events))
    ∧ ((ExecutionEngine.run goal (.ok steps) true perms exec (some f)).result.steps.all
        (·.success) = true →
      (ExecutionEngine.run goal (.ok steps) true perms exec (some f)).result.success = true)
    ∧ (sparseAnySuccess (EnhancedExecutionEngine.execute goal (.ok steps) true perms exec
          (some f') mc ff).steps = true →
      ∀ e, f' goal (EnhancedExecutionEngine.execute goal (.ok steps) true perms exec
          (some f') mc ff).steps = .error e →
        Event.result (sparseAllSuccess (EnhancedExecutionEngine.execute goal (.ok steps) true
            perms exec (some f') mc ff).steps)
          (some (.rawSparse (EnhancedExecutionEngine.execute goal (.ok steps) true perms exec
            (some f') mc ff).steps)) none
          ∈ (EnhancedExecutionEngine.execute goal (.ok steps) true perms exec
              (some f') mc ff).events)
    ∧ (sparseAllSuccess (EnhancedExecutionEngine.execute goal (.ok steps) true perms exec
          (some f') mc ff).steps = true →
      (EnhancedExecutionEngine.execute goal (.ok steps) true perms exec
          (some f') mc ff).success = true) := by
  refine ⟨?_, ?_, ?_, ?_⟩
  · intro hany
    rw [run_result_steps_eq] at hany
    constructor
    · intro s hf
      rw [run_result_steps_eq] at hf
      rw [run_events_eq]
      have hfp : formatPhase goal (some f)
          ((stepLoop perms exec steps.length 0 steps).2.2)
          = [Event.status "整理结果..." "formatting",
             Event.result true (some (.formatted s)) none] := by
        unfold formatPhase
        simp [hany, hf]
      simp [hfp]
    · intro e hf
      rw [run_result_steps_eq] at hf ⊢
      rw [run_events_eq]
      have hfp : formatPhase goal (some f)
          ((stepLoop perms exec steps.length 0 steps).2.2)
          = [Event.status "整理结果..." "formatting",
             Event.result true
               (some (.raw ((stepLoop perms exec steps.length 0 steps).2.2))) none] := by
        unfold formatPhase
        simp [hany, hf]
      simp [hfp]
  · intro hall
    rw [run_result_steps_eq] at hall
    rw [run_result_success_eq]
    exact hall
  · intro hany e hf
    by_cases hlen : steps.length = 0
    · rw [List.length_eq_zero] at hlen
      subst hlen
      simp [EnhancedExecutionEngine.execute, sparseAnySuccess] at hany
    · rw [enhanced_execute_components goal steps perms exec (some f') mc ff hlen]
        at hany hf ⊢
      simp only at hany hf ⊢
      have hfp : enhancedFormatPhase goal (some f')
          ((executeSteps perms exec mc ff steps).2.2.2)
          = [Event.status "整理结果..." "formatting",
             Event.result (sparseAllSuccess ((executeSteps perms exec mc ff steps).2.2.2))
               (some (.rawSparse ((executeSteps perms exec mc ff steps).2.2.2))) none] := by
        unfold enhancedFormatPhase
        simp [hany, hf]
      simp [hfp]
  · intro hall
    by_cases hlen : steps.length = 0
    · rw [List.length_eq_zero] at hlen
      subst hlen
      rfl
    · rw [enhanced_execute_components goal steps perms exec (some f') mc ff hlen] at hall ⊢
      exact hall

/-- C6 witness: a one-step successful run with a formatter that throws
falls back to the raw step results in the result event. -/
theorem c6_formatter_fallback_witness :
    Event.result true
        (some (.raw (ExecutionEngine.run "g" (.ok [exStepRead]) true allowAll exExecOk
          (some exFmtThrow)).result.steps)) none
      ∈ (ExecutionEngine.run "g" (.ok [exStepRead]) true allowAll exExecOk
          (some exFmtThrow)).events :=
  ((c6_formatter_fallback "g" [exStepRead] allowAll exExecOk exFmtThrow
      (fun _ _ => .error "fmtboom") 3 false).1 (by decide)).2 "fmtboom" rfl

theorem chunkGo_flatten {α : Type} (k : Nat) (hk : k ≠ 0) :
    ∀ (fuel : Nat) (l : List α), l.length ≤ fuel → (chunkGo k fuel l).flatten = l := by
  intro fuel
  induction fuel with
  | zero =>
    intro l hl
    rw [Nat.le_zero, List.length_eq_zero] at hl
    subst hl
    rfl
  | succ n ih =>
    intro l hl
    cases l with
    | nil => rfl
    | cons x xs =>
      have hlen : ((x :: xs).drop k).length ≤ n := by
        simp only [List.length_drop, List.length_cons]
        simp only [List.length_cons] at hl
        omega
      rw [chunkGo, if_neg hk, List.flatten_cons, ih _ hlen]
      exact List.take_append_drop k (x :: xs)

theorem chunkBatches_flatten {α : Type} (k : Nat) (hk : k ≠ 0) (l : List α) :
    (chunkBatches k l).flatten = l :=
  chunkGo_flatten k hk l.length l le_rfl

theorem chunkGo_mem_length {α : Type} (k : Nat) :
    ∀ (fuel : Nat) (l : List α) (b : List α), b ∈ chunkGo k fuel l → b.length ≤ k := by
  intro fuel
  induction fuel with
  | zero =>
    intro l b hb
    cases l <;> simp [chunkGo] at hb
  | succ n ih =>
    intro l b hb
    cases l with
    | nil => simp [chunkGo] at hb
    | cons x xs =>
      rw [chunkGo] at hb
      by_cases hk : k = 0
      · simp [hk] at hb
      · rw [if_neg hk] at hb
        rcases List.mem_cons.mp hb with hb | hb
        · subst hb
          simp [List.length_take]
        · exact ih _ b hb

theorem chunkBatches_mem_length {α : Type} (k : Nat) (l : List α) (b : List α)
    (hb : b ∈ chunkBatches k l) : b.length ≤ k :=
  chunkGo_mem_length k l.length l b hb

theorem executeSingleStep_result (perms : Nat → Bool)
    (exec : Nat → PlanStep → Except String String) (totalSteps stepIndex : Nat)
    (step : PlanStep) :
    (executeSingleStep perms exec totalSteps stepIndex step).2.2
      = modelStepResult perms exec stepIndex step := by
  unfold executeSingleStep modelStepResult
  by_cases hr : isHighRisk step = true
  · by_cases hp : perms stepIndex = true
    · cases hex : exec stepIndex step <;> simp [hr, hp, hex, execOutcome]
    · simp only [Bool.not_eq_true] at hp
      simp [hr, hp]
  · simp only [Bool.not_eq_true] at hr
    cases hex : exec stepIndex step <;> simp [hr, hex, execOutcome]

theorem executeSingleStep_calls (perms : Nat → Bool)
    (exec : Nat → PlanStep → Except String String) (totalSteps stepIndex : Nat)
    (step : PlanStep) :
    (executeSingleStep perms exec totalSteps stepIndex step).2.1
      = if !(isHighRisk step) || perms stepIndex then [(stepIndex, step)] else [] := by
  unfold executeSingleStep
  by_cases hr : isHighRisk step = true
  · by_cases hp : perms stepIndex = true
    · cases hex : exec stepIndex step <;> simp [hr, hp, hex, execOutcome]
    · simp only [Bool.not_eq_true] at hp
      simp [hr, hp]
  · simp only [Bool.not_eq_true] at hr
    cases hex : exec stepIndex step <;> simp [hr, hex, execOutcome]

theorem modelStepResult_stepId (perms : Nat → Bool)
    (exec : Nat → PlanStep → Except String String) (i : Nat) (step : PlanStep) :
    (modelStepResult perms exec i step).stepId = step.id := by
  unfold modelStepResult
  split
  · rfl
  · cases exec i step <;> simp [execOutcome]

theorem executeParallelBatches_calls_noFF (perms : Nat → Bool)
    (exec : Nat → PlanStep → Except String String) (total : Nat) :
    ∀ (batches : List (List (Nat × PlanStep))),
    (executeParallelBatches perms exec false total batches).2.1
      = (batches.flatten.map
          (fun p => (executeSingleStep perms exec total p.1 p.2).2.1)).flatten := by
  intro batches
  induction batches with
  | nil => rfl
  | cons batch rest ih =>
    rw [executeParallelBatches]
    simp only [Bool.false_and, Bool.false_eq_true, if_false]
    rcases hrec : executeParallelBatches perms exec false total rest with ⟨evs', calls', res'⟩
    rw [hrec] at ih
    simp only at ih
    simp only [ih, List.flatten_cons, List.map_append, List.flatten_append,
      List.map_map, Function.comp]
    rfl

theorem executeParallelBatches_results_noFF (perms : Nat → Bool)
    (exec : Nat → PlanStep → Except String String) (total : Nat) :
    ∀ (batches : List (List (Nat × PlanStep))),
    (executeParallelBatches perms exec false total batches).2.2
      = batches.flatten.map
          (fun p => (p.1, (executeSingleStep perms exec total p.1 p.2).2.2)) := by
  intro batches
  induction batches with
  | nil => rfl
  | cons batch rest ih =>
    rw [executeParallelBatches]
    simp only [Bool.false_and, Bool.false_eq_true, if_false]
    rcases hrec : executeParallelBatches perms exec false total rest with ⟨evs', calls', res'⟩
    rw [hrec] at ih
    simp only at ih
    simp only [ih, List.flatten_cons, List.map_append, List.map_map, Function.comp]
    rfl

theorem writeBack_foldl_length (ws : List (Nat × StepResult)) :
    ∀ (acc : List (Option StepResult)),
    (ws.foldl (fun a p => a.set p.1 (some p.2)) acc).length = acc.length := by
  induction ws with
  | nil => intro acc; rfl
  | cons w rest ih =>
    intro acc
    rw [List.foldl_cons, ih, List.length_set]

theorem writeBack_length (n : Nat) (ws : List (Nat × StepResult)) :
    (writeBack n ws).length = n := by
  unfold writeBack
  rw [writeBack_foldl_length, List.length_replicate]

theorem writeBack_foldl_not_mem (i : Nat) (ws : List (Nat × StepResult))
    (hni : i ∉ ws.map Prod.fst) :
    ∀ (acc : List (Option StepResult)),
    (ws.foldl (fun a p => a.set p.1 (some p.2)) acc)[i]? = acc[i]? := by
  induction ws with
  | nil => intro acc; rfl
  | cons w rest ih =>
    intro acc
    simp only [List.map_cons, List.mem_cons, not_or] at hni
    rw [List.foldl_cons, ih hni.2, List.getElem?_set_ne (Ne.symm hni.1)]

theorem writeBack_foldl_mem (i : Nat) (r : StepResult) :
    ∀ (ws : List (Nat × StepResult)) (acc : List (Option StepResult)),
    (ws.map Prod.fst).Nodup → (i, r) ∈ ws → i < acc.length →
    (ws.foldl (fun a p => a.set p.1 (some p.2)) acc)[i]? = some (some r) := by
  intro ws
  induction ws with
  | nil => intro acc _ hmem _; simp at hmem
  | cons w rest ih =>
    intro acc hnd hmem hlen
    simp only [List.map_cons, List.nodup_cons] at hnd
    rcases List.mem_cons.mp hmem with hmem | hmem
    · subst hmem
      rw [List.foldl_cons]
      rw [writeBack_foldl_not_mem i rest hnd.1]
      rw [List.getElem?_set_eq (by simpa using hlen)]
    · rw [List.foldl_cons]
      exact ih _ hnd.2 hmem (by simpa using hlen)

theorem flatten_map_singleton {α β : Type} (f : α → β) :
    ∀ (l : List α), (l.map (fun x => [f x])).flatten = l.map f := by
  intro l
  induction l with
  | nil => rfl
  | cons x xs ih => simp [ih]


theorem executeSteps_calls_noFF (perms : Nat → Bool)
    (exec : Nat → PlanStep → Except String String) (mc : Nat) (steps : List PlanStep)
    (hmc : 0 < mc) :
    (executeSteps perms exec mc false steps).2.1
      = (((steps.enum.filter (fun p => isIndependentStep p.2))
          ++ (steps.enum.filter (fun p => !(isIndependentStep p.2)))).map
            (fun p => (executeSingleStep perms exec steps.length p.1 p.2).2.1)).flatten := by
  by_cases hgt : 1 < (steps.enum.filter (fun p => isIndependentStep p.2)).length
  · rcases hpar : executeParallelBatches perms exec false steps.length
        (chunkBatches mc (steps.enum.filter (fun p => isIndependentStep p.2))) with ⟨e, c, r⟩
    have hc := executeParallelBatches_calls_noFF perms exec steps.length
        (chunkBatches mc (steps.enum.filter (fun p => isIndependentStep p.2)))
    rw [hpar] at hc
    simp only at hc
    rw [chunkBatches_flatten mc (Nat.pos_iff_ne_zero.mp hmc)] at hc
    simp only [executeSteps, if_pos hgt, hpar]
    rw [hc]
    simp only [List.map_append, List.flatten_append, List.map_map, Function.comp]
    rfl
  · simp only [executeSteps, if_neg hgt]
    simp only [List.map_append, List.flatten_append, List.map_map, Function.comp]
    rfl

theorem executeSteps_results_noFF (perms : Nat → Bool)
    (exec : Nat → PlanStep → Except String String) (mc : Nat) (steps : List PlanStep)
    (hmc : 0 < mc) :
    (executeSteps perms exec mc false steps).2.2.2
      = writeBack steps.length
          (((steps.enum.filter (fun p => isIndependentStep p.2))
            ++ (steps.enum.filter (fun p => !(isIndependentStep p.2)))).map
              (fun p => (p.1, (executeSingleStep perms exec steps.length p.1 p.2).2.2))) := by
  by_cases hgt : 1 < (steps.enum.filter (fun p => isIndependentStep p.2)).length
  · rcases hpar : executeParallelBatches perms exec false steps.length
        (chunkBatches mc (steps.enum.filter (fun p => isIndependentStep p.2))) with ⟨e, c, r⟩
    have hr := executeParallelBatches_results_noFF perms exec steps.length
        (chunkBatches mc (steps.enum.filter (fun p => isIndependentStep p.2)))
    rw [hpar] at hr
    simp only at hr
    rw [chunkBatches_flatten mc (Nat.pos_iff_ne_zero.mp hmc)] at hr
    simp only [executeSteps, if_pos hgt, hpar]
    rw [hr]
    simp only [List.map_append, List.map_map, Function.comp]
    rfl
  · simp only [executeSteps, if_neg hgt]
    simp only [List.map_append, List.map_map, Function.comp]
    rfl

theorem executeSteps_batches_noFF (perms : Nat → Bool)
    (exec : Nat → PlanStep → Except String String) (mc : Nat) (steps : List PlanStep) :
    (∀ b ∈ (executeSteps perms exec mc false steps).2.2.1, b.length ≤ mc)
    ∧ (1 < (steps.enum.filter (fun p => isIndependentStep p.2)).length →
        (executeSteps perms exec mc false steps).2.2.1
          = chunkBatches mc (steps.enum.filter (fun p => isIndependentStep p.2))) := by
  by_cases hgt : 1 < (steps.enum.filter (fun p => isIndependentStep p.2)).length
  · rcases hpar : executeParallelBatches perms exec false steps.length
        (chunkBatches mc (steps.enum.filter (fun p => isIndependentStep p.2))) with ⟨e, c, r⟩
    simp only [executeSteps, if_pos hgt, hpar]
    constructor
    · intro b hb
      exact chunkBatches_mem_length mc _ b hb
    · intro _
      trivial
  · simp only [executeSteps, if_neg hgt]
    constructor
    · intro b hb
      simp at hb
    · intro h
      exact absurd h hgt

theorem flatten_map_singleton_self {α : Type} :
    ∀ (l : List α), (l.map (fun x => [x])).flatten = l := by
  intro l
  induction l with
  | nil => rfl
  | cons x xs ih => simp [ih]

theorem enum_split_keys_nodup (steps : List PlanStep) (pr : Nat × PlanStep → Bool) :
    ((steps.enum.filter pr ++ steps.enum.filter (fun x => !pr x)).map Prod.fst).Nodup := by
  rw [List.map_append, List.nodup_append]
  refine ⟨((List.filter_sublist _).map Prod.fst).nodup (List.nodup_enum_map_fst steps),
    ((List.filter_sublist _).map Prod.fst).nodup (List.nodup_enum_map_fst steps), ?_⟩
  intro a ha1 ha2
  obtain ⟨⟨i1, s1⟩, h1, hfst1⟩ := List.mem_map.mp ha1
  obtain ⟨⟨i2, s2⟩, h2, hfst2⟩ := List.mem_map.mp ha2
  obtain ⟨hmem1, hpr1⟩ := List.mem_filter.mp h1
  obtain ⟨hmem2, hpr2⟩ := List.mem_filter.mp h2
  simp only at hfst1 hfst2
  subst hfst1
  subst hfst2
  have hg1 := List.mk_mem_enum_iff_getElem?.mp hmem1
  have hg2 := List.mk_mem_enum_iff_getElem?.mp hmem2
  rw [hg1] at hg2
  injection hg2 with hs
  subst hs
  rw [hpr1] at hpr2
  simp at hpr2

theorem execute_alignment_noFF (goal : String) (steps : List PlanStep)
    (perms : Nat → Bool) (exec : Nat → PlanStep → Except String String)
    (fm : Option (String → List (Option StepResult) → Except String String))
    (mc : Nat) (hmc : 0 < mc) (hperm : ∀ i, perms i = true) :
    ((EnhancedExecutionEngine.execute goal (.ok steps) true perms exec fm mc false).steps.length
        = steps.length)
    ∧ (∀ (i : Nat) (step : PlanStep), steps[i]? = some step →
        ∃ r : StepResult,
          (EnhancedExecutionEngine.execute goal (.ok steps) true perms exec fm
              mc false).steps[i]? = some (some r)
          ∧ r.stepId = step.id)
    ∧ ((EnhancedExecutionEngine.execute goal (.ok steps) true perms exec fm mc false).calls
        = steps.enum.filter (fun p => isIndependentStep p.2)
          ++ steps.enum.filter (fun p => !(isIndependentStep p.2)))
    ∧ ((EnhancedExecutionEngine.execute goal (.ok steps) true perms exec fm
          mc false).calls.Perm steps.enum)
    ∧ (∀ b ∈ (EnhancedExecutionEngine.execute goal (.ok steps) true perms exec fm
          mc false).batches, b.length ≤ mc)
    ∧ (1 < (steps.enum.filter (fun p => isIndependentStep p.2)).length →
        (EnhancedExecutionEngine.execute goal (.ok steps) true perms exec fm
            mc false).batches.flatten
          = steps.enum.filter (fun p => isIndependentStep p.2)) := by
  by_cases hlen : steps.length = 0
  · rw [List.length_eq_zero] at hlen
    subst hlen
    refine ⟨rfl, ?_, rfl, by simp [EnhancedExecutionEngine.execute], ?_, ?_⟩
    · intro i step hi
      simp at hi
    · intro b hb
      simp [EnhancedExecutionEngine.execute] at hb
    · intro h
      simp at h
  · have hcomp := enhanced_execute_components goal steps perms exec fm mc false hlen
    have hcalls := executeSteps_calls_noFF perms exec mc steps hmc
    have hresults := executeSteps_results_noFF perms exec mc steps hmc
    have hbatches := executeSteps_batches_noFF perms exec mc steps
    have hess : ∀ p : Nat × PlanStep,
        (executeSingleStep perms exec steps.length p.1 p.2).2.1 = [p] := by
      intro p
      rw [executeSingleStep_calls, hperm p.1]
      simp
    have hcalls2 : (executeSteps perms exec mc false steps).2.1
        = steps.enum.filter (fun p => isIndependentStep p.2)
          ++ steps.enum.filter (fun p => !(isIndependentStep p.2)) := by
      rw [hcalls]
      simp only [hess]
      exact flatten_map_singleton_self _
    have hres2 : (executeSteps perms exec mc false steps).2.2.2
        = writeBack steps.length
            (((steps.enum.filter (fun p => isIndependentStep p.2))
              ++ (steps.enum.filter (fun p => !(isIndependentStep p.2)))).map
                (fun p => (p.1, modelStepResult perms exec p.1 p.2))) := by
      rw [hresults]
      simp only [executeSingleStep_result]
    refine ⟨?_, ?_, ?_, ?_, ?_, ?_⟩
    · rw [hcomp]
      simp only
      rw [hres2, writeBack_length]
    · intro i step hi
      refine ⟨modelStepResult perms exec i step, ?_, modelStepResult_stepId perms exec i step⟩
      rw [hcomp]
      simp only
      rw [hres2]
      unfold writeBack
      have hmem : (i, step) ∈ steps.enum := List.mk_mem_enum_iff_getElem?.mpr hi
      have hmem2 : (i, step) ∈ steps.enum.filter (fun p => isIndependentStep p.2)
          ++ steps.enum.filter (fun p => !(isIndependentStep p.2)) := by
        by_cases hind : isIndependentStep step = true
        · exact List.mem_append_left _ (List.mem_filter.mpr ⟨hmem, hind⟩)
        · refine List.mem_append_right _ (List.mem_filter.mpr ⟨hmem, ?_⟩)
          simp only [Bool.not_eq_true] at hind
          simp [hind]
      have hmemw : (i, modelStepResult perms exec i step)
          ∈ ((steps.enum.filter (fun p => isIndependentStep p.2)
              ++ steps.enum.filter (fun p => !(isIndependentStep p.2))).map
                (fun p => (p.1, modelStepResult perms exec p.1 p.2))) :=
        List.mem_map.mpr ⟨(i, step), hmem2, rfl⟩
      have hkeys : (((steps.enum.filter (fun p => isIndependentStep p.2)
            ++ steps.enum.filter (fun p => !(isIndependentStep p.2))).map
              (fun p => (p.1, modelStepResult perms exec p.1 p.2))).map Prod.fst).Nodup := by
        rw [List.map_map]
        exact enum_split_keys_nodup steps (fun p => isIndependentStep p.2)
      have hilt : i < steps.length := by
        rcases List.getElem?_eq_some.mp hi with ⟨h, _⟩
        exact h
      exact writeBack_foldl_mem i (modelStepResult perms exec i step) _ _ hkeys hmemw
        (by simpa using hilt)
    · rw [hcomp]
      simp only
      exact hcalls2
    · rw [hcomp]
      simp only
      rw [hcalls2]
      exact List.filter_append_perm _ _
    · intro b hb
      rw [hcomp] at hb
      simp only at hb
      exact hbatches.1 b hb
    · intro hgt
      rw [hcomp]
      simp only
      rw [hbatches.2 hgt]
      exact chunkBatches_flatten mc (Nat.pos_iff_ne_zero.mp hmc) _

/-- C2 counterexample: with failFast enabled and a failing first batch,
the enhanced engine stops scheduling the remaining independent batches:
the returned steps array keeps length 2 but slot 1 is a hole (no
stepId), and the executor runs once instead of twice, although the plan
was approved and every permission granted. -/
theorem c2_failFast_hole_counterexample :
    c2FailFastOut.steps = [some ⟨"a", false, none, some "boom"⟩, none]
      ∧ c2FailFastOut.calls.length = 1
      ∧ c2FailFastOut.steps.length = 2 := by
  decide


theorem chunkBatches_zero {α : Type} (l : List α) : chunkBatches 0 l = [] := by
  cases l with
  | nil => rfl
  | cons x xs => simp [chunkBatches, chunkGo]

theorem executeParallelBatchesPC_agree (perms : Nat → Bool)
    (exec : Nat → PlanStep → Except String String) (ff : Bool) (total : Nat) :
    ∀ (batches : List (List (Nat × PlanStep))),
    (∀ b ∈ batches, (b.filter (fun p => isHighRisk p.2)).length ≤ 1) →
    executeParallelBatchesPC perms exec ff total batches
      = some (executeParallelBatches perms exec ff total batches) := by
  intro batches
  induction batches with
  | nil => intro _; rfl
  | cons batch rest ih =>
    intro h
    have hb := h batch (List.mem_cons_self _ _)
    have hguard : ¬(2 ≤ (batch.filter (fun p => isHighRisk p.2)).length) := by omega
    rw [executeParallelBatchesPC, executeParallelBatches, if_neg hguard,
      ih (fun b hb2 => h b (List.mem_cons_of_mem _ hb2))]
    by_cases hbrk : (ff && ((batch.map
        (fun p => (p.1, executeSingleStep perms exec total p.1 p.2))).map
          (fun o => (o.1, o.2.2.2))).any (fun r => !r.2.success)) = true
    · simp only [hbrk, if_true]
    · simp only [Bool.not_eq_true] at hbrk
      simp only [hbrk, Bool.false_eq_true, if_false]

theorem executeParallelBatchesPC_deadlock (perms : Nat → Bool)
    (exec : Nat → PlanStep → Except String String) (total : Nat) :
    ∀ (batches : List (List (Nat × PlanStep))) (b : List (Nat × PlanStep)),
    b ∈ batches → 2 ≤ (b.filter (fun p => isHighRisk p.2)).length →
    executeParallelBatchesPC perms exec false total batches = none := by
  intro batches
  induction batches with
  | nil => intro b hb _; simp at hb
  | cons batch rest ih =>
    intro b hb hcount
    rcases List.mem_cons.mp hb with rfl | hb2
    · rw [executeParallelBatchesPC, if_pos hcount]
    · rw [executeParallelBatchesPC]
      by_cases hguard : 2 ≤ (batch.filter (fun p => isHighRisk p.2)).length
      · rw [if_pos hguard]
      · rw [if_neg hguard, ih b hb2 hcount]
        simp

theorem executeStepsPC_agree (perms : Nat → Bool)
    (exec : Nat → PlanStep → Except String String) (mc : Nat) (ff : Bool)
    (steps : List PlanStep) (hmc : 0 < mc)
    (hb : ∀ b ∈ chunkBatches mc (steps.enum.filter (fun p => isIndependentStep p.2)),
      (b.filter (fun p => isHighRisk p.2)).length ≤ 1) :
    executeStepsPC perms exec mc ff steps = some (executeSteps perms exec mc ff steps) := by
  have hmc0 : ¬(mc = 0) := by omega
  by_cases hgt : 1 < (steps.enum.filter (fun p => isIndependentStep p.2)).length
  · rcases hpar : executeParallelBatches perms exec ff steps.length
        (chunkBatches mc (steps.enum.filter (fun p => isIndependentStep p.2)))
      with ⟨e, c, r⟩
    have hag := executeParallelBatchesPC_agree perms exec ff steps.length
        (chunkBatches mc (steps.enum.filter (fun p => isIndependentStep p.2))) hb
    rw [hpar] at hag
    simp only [executeStepsPC, executeSteps, if_pos hgt, if_neg hmc0, hpar, hag]
    rfl
  · simp only [executeStepsPC, executeSteps, if_neg hgt]

theorem executeStepsPC_none_deadlock (perms : Nat → Bool)
    (exec : Nat → PlanStep → Except String String) (mc : Nat)
    (steps : List PlanStep) (b : List (Nat × PlanStep))
    (hgt : 1 < (steps.enum.filter (fun p => isIndependentStep p.2)).length)
    (hbmem : b ∈ chunkBatches mc (steps.enum.filter (fun p => isIndependentStep p.2)))
    (hcount : 2 ≤ (b.filter (fun p => isHighRisk p.2)).length) :
    executeStepsPC perms exec mc false steps = none := by
  have hmc0 : ¬(mc = 0) := by
    intro h
    subst h
    rw [chunkBatches_zero] at hbmem
    simp at hbmem
  rw [show executeStepsPC perms exec mc false steps = _ from rfl]
  simp only [executeStepsPC, if_pos hgt, if_neg hmc0,
    executeParallelBatchesPC_deadlock perms exec steps.length _ b hbmem hcount,
    Option.map_none']

theorem executeStepsPC_none_spin (perms : Nat → Bool)
    (exec : Nat → PlanStep → Except String String) (ff : Bool) (steps : List PlanStep)
    (hgt : 1 < (steps.enum.filter (fun p => isIndependentStep p.2)).length) :
    executeStepsPC perms exec 0 ff steps = none := by
  simp only [executeStepsPC, if_pos hgt]
  rfl

theorem executePC_of_executeStepsPC (goal : String) (steps : List PlanStep)
    (perms : Nat → Bool) (exec : Nat → PlanStep → Except String String)
    (fm : Option (String → List (Option StepResult) → Except String String))
    (mc : Nat) (ff : Bool) (hlen : steps.length ≠ 0) :
    (executeStepsPC perms exec mc ff steps = some (executeSteps perms exec mc ff steps) →
      EnhancedExecutionEngine.executePC goal (.ok steps) true perms exec fm mc ff
        = some (EnhancedExecutionEngine.execute goal (.ok steps) true perms exec fm mc ff))
    ∧ (executeStepsPC perms exec mc ff steps = none →
      EnhancedExecutionEngine.executePC goal (.ok steps) true perms exec fm mc ff = none) := by
  constructor
  · intro hsome
    rw [enhanced_execute_components goal steps perms exec fm mc ff hlen]
    rcases hes : executeSteps perms exec mc ff steps with ⟨evs, calls, batches, rs⟩
    rw [hes] at hsome
    simp only [EnhancedExecutionEngine.executePC, hlen, if_false, Bool.not_true, hsome, hes,
      Bool.false_eq_true]
  · intro hnone
    simp only [EnhancedExecutionEngine.executePC, hlen, if_false, Bool.not_true, hnone,
      Bool.false_eq_true]

/-- Deadlock demonstration: two SYSTEM-tier steps with non-mutation
tool names fall into one parallel batch of size two; both permission
prompts are opened during the Promise.all fan-out, the second
overwrites the single pendingConfirm slot, the first step never
resumes, and the refined run model records that the run never
returns. -/
theorem executePC_two_prompt_deadlock :
    EnhancedExecutionEngine.executePC "g"
      (.ok [⟨"x", "registry_read", "SYSTEM", none⟩, ⟨"y", "service_query", "SYSTEM", none⟩])
      true allowAll exExecOk none 2 false = none := by
  decide

/-- C2 (amended): with failFast disabled, the plan approved and every
permission granted, whenever the run returns at all the enhanced engine
returns a dense results array of length N aligned by stepId, invokes
the executor exactly once per step, and runs independent steps first in
batches of at most maxConcurrent, the remaining steps strictly
serially.  The run fails to return exactly in the excluded cases: a
parallel batch opening two or more permission prompts overwrites the
single pendingConfirm slot and deadlocks, skipping the orphaned
executor calls, and a zero maxConcurrent spins in the batch slicing. -/
theorem c2_enhanced_alignment (goal : String) (steps : List PlanStep)
    (perms : Nat → Bool) (exec : Nat → PlanStep → Except String String)
    (fm : Option (String → List (Option StepResult) → Except String String))
    (mc : Nat) (hperm : ∀ i, perms i = true) :
    (0 < mc →
      (∀ b ∈ chunkBatches mc (steps.enum.filter (fun p => isIndependentStep p.2)),
        (b.filter (fun p => isHighRisk p.2)).length ≤ 1) →
      EnhancedExecutionEngine.executePC goal (.ok steps) true perms exec fm mc false
          = some (EnhancedExecutionEngine.execute goal (.ok steps) true perms exec fm mc false)
      ∧ (((EnhancedExecutionEngine.execute goal (.ok steps) true perms exec fm
              mc false).steps.length = steps.length)
        ∧ (∀ (i : Nat) (step : PlanStep), steps[i]? = some step →
            ∃ r : StepResult,
              (EnhancedExecutionEngine.execute goal (.ok steps) true perms exec fm
                  mc false).steps[i]? = some (some r)
              ∧ r.stepId = step.id)
        ∧ ((EnhancedExecutionEngine.execute goal (.ok steps) true perms exec fm mc false).calls
            = steps.enum.filter (fun p => isIndependentStep p.2)
              ++ steps.enum.filter (fun p => !(isIndependentStep p.2)))
        ∧ ((EnhancedExecutionEngine.execute goal (.ok steps) true perms exec fm
              mc false).calls.Perm steps.enum)
        ∧ (∀ b ∈ (EnhancedExecutionEngine.execute goal (.ok steps) true perms exec fm
              mc false).batches, b.length ≤ mc)
        ∧ (1 < (steps.enum.filter (fun p => isIndependentStep p.2)).length →
            (EnhancedExecutionEngine.execute goal (.ok steps) true perms exec fm
                mc false).batches.flatten
              = steps.enum.filter (fun p => isIndependentStep p.2))))
    ∧ (∀ b ∈ chunkBatches mc (steps.enum.filter (fun p => isIndependentStep p.2)),
        2 ≤ (b.filter (fun p => isHighRisk p.2)).length →
        1 < (steps.enum.filter (fun p => isIndependentStep p.2)).length →
        EnhancedExecutionEngine.executePC goal (.ok steps) true perms exec fm mc false = none)
    ∧ (mc = 0 → 1 < (steps.enum.filter (fun p => isIndependentStep p.2)).length →
        EnhancedExecutionEngine.executePC goal (.ok steps) true perms exec fm mc false
          = none) := by
  have hne : 1 < (steps.enum.filter (fun p => isIndependentStep p.2)).length →
      steps.length ≠ 0 := by
    intro hgt
    have h1 : (steps.enum.filter (fun p => isIndependentStep p.2)).length
        ≤ steps.enum.length := List.length_filter_le _ _
    have h2 : steps.enum.length = steps.length := List.enum_length
    omega
  refine ⟨?_, ?_, ?_⟩
  · intro hmc hb
    have h6 := execute_alignment_noFF goal steps perms exec fm mc hmc hperm
    have hag := executeStepsPC_agree perms exec mc false steps hmc hb
    by_cases hlen : steps.length = 0
    · rw [List.length_eq_zero] at hlen
      subst hlen
      exact ⟨rfl, h6⟩
    · exact ⟨(executePC_of_executeStepsPC goal steps perms exec fm mc false hlen).1 hag, h6⟩
  · intro b hbmem hcount hgt
    exact (executePC_of_executeStepsPC goal steps perms exec fm mc false (hne hgt)).2
      (executeStepsPC_none_deadlock perms exec mc steps b hgt hbmem hcount)
  · intro hmc0 hgt
    subst hmc0
    exact (executePC_of_executeStepsPC goal steps perms exec fm 0 false (hne hgt)).2
      (executeStepsPC_none_spin perms exec false steps hgt)

/-- C2 witness: the amended statement applied to a three-step plan with
two independent low-risk steps, maxConcurrent two and every permission
granted, discharging each hypothesis concretely. -/
theorem c2_enhanced_alignment_witness :
    (EnhancedExecutionEngine.execute "g" (.ok [exStepRead, exStepBrowse, exStepDelete]) true
        allowAll exExecOk none 2 false).steps.length = 3 :=
  (((c2_enhanced_alignment "g" [exStepRead, exStepBrowse, exStepDelete] allowAll exExecOk
      none 2 (fun _ => rfl)).1 (by decide) (by decide)).2).1
